import Mathlib

/-!
A verification development for the recurrence-materialization, scoped-mutation
and deferred-status-transition engine of the taimr scheduling backend
(`app/api/recurrences/service.py`, `app/api/meetings/service.py`,
`app/services/scheduler_service.py`).

Conventions of the shallow embedding:
* Python `datetime.date` values are modelled by `PyDate` (year/month/day with the
  proleptic Gregorian rules as implemented by CPython, including leap years).
* Naive UTC `datetime` values appearing in the materializer are modelled by
  `PyDateTime` (a date plus a second-of-day); ordering is the field-wise
  lexicographic order CPython uses.
* Absolute instants in the occurrence store are modelled as `Int` seconds since
  the proleptic-Gregorian epoch (`toInstant` maps a `PyDateTime` there);
  `datetime.date()` becomes floor-division by 86400 and `datetime.combine`
  becomes `combineInstant`.  This is exact for naive datetimes at one-second
  granularity, which covers every comparison and offset in the source.
* Python floats carrying money are modelled by `ℚ` (the source only multiplies
  and divides; no rounding behaviour is claimed).
* Fallible paths (`ValueError`, missing rows) are `Except`; the source's
  unbounded `while` loop is embedded with explicit fuel, instantiated at the
  top level with a bound proven sufficient for every valid date range.
-/

/-! ## Calendar model (CPython `datetime.date` arithmetic) -/

structure PyDate where
  year : Nat
  month : Nat
  day : Nat
deriving DecidableEq

/-- CPython leap-year rule. -/
def isLeapYear (y : Nat) : Bool :=
  y % 4 == 0 && (y % 100 != 0 || y % 400 == 0)

/-- Days in a month, as in CPython's `calendar` logic (months outside 1..12 never
arise on valid dates; the default branch returns 31). -/
def daysInMonth (y m : Nat) : Nat :=
  if m = 2 then (if isLeapYear y then 29 else 28)
  else if m = 4 ∨ m = 6 ∨ m = 9 ∨ m = 11 then 30
  else 31

/-- The dates CPython's `datetime.date` can represent (year ≥ 1). -/
def PyDate.Valid (d : PyDate) : Prop :=
  1 ≤ d.year ∧ 1 ≤ d.month ∧ d.month ≤ 12 ∧ 1 ≤ d.day ∧ d.day ≤ daysInMonth d.year d.month

instance (d : PyDate) : Decidable d.Valid := by
  unfold PyDate.Valid; infer_instance

/-- Days in all years before year `y` (CPython's `_days_before_year`). -/
def daysBeforeYear (y : Nat) : Nat :=
  365 * (y - 1) + (y - 1) / 4 - (y - 1) / 100 + (y - 1) / 400

/-- CPython's cumulative `_DAYS_BEFORE_MONTH` table (without the leap correction). -/
def daysBeforeMonthTable (m : Nat) : Nat :=
  match m with
  | 1 => 0 | 2 => 31 | 3 => 59 | 4 => 90 | 5 => 120 | 6 => 151 | 7 => 181
  | 8 => 212 | 9 => 243 | 10 => 273 | 11 => 304 | 12 => 334 | 13 => 365
  | _ => 0

/-- Days in year `y` strictly before month `m` (CPython's `_days_before_month`,
which adds one for months past February in a leap year). -/
def daysBeforeMonth (y m : Nat) : Nat :=
  daysBeforeMonthTable m + (if 3 ≤ m ∧ m ≤ 13 ∧ isLeapYear y then 1 else 0)

/-- Source `date.toordinal() - 1`: days since 0001-01-01. -/
def PyDate.toOrdinal (d : PyDate) : Nat :=
  daysBeforeYear d.year + daysBeforeMonth d.year d.month + (d.day - 1)

/-- The successor date (`date + timedelta(days=1)`). -/
def PyDate.nextDay (d : PyDate) : PyDate :=
  if d.day < daysInMonth d.year d.month then ⟨d.year, d.month, d.day + 1⟩
  else if d.month < 12 then ⟨d.year, d.month + 1, 1⟩
  else ⟨d.year + 1, 1, 1⟩

/-- Source `date + timedelta(days=n)`. -/
def PyDate.addDays (d : PyDate) (n : Nat) : PyDate :=
  PyDate.nextDay^[n] d

/-- Field-wise lexicographic order: CPython's `date.__lt__`. -/
def dateLt (a b : PyDate) : Prop :=
  a.year < b.year ∨ (a.year = b.year ∧
    (a.month < b.month ∨ (a.month = b.month ∧ a.day < b.day)))

def dateLe (a b : PyDate) : Prop := dateLt a b ∨ a = b

instance (a b : PyDate) : Decidable (dateLt a b) := by unfold dateLt; infer_instance
instance (a b : PyDate) : Decidable (dateLe a b) := by unfold dateLe; infer_instance

/-- A naive `datetime`: a date and a second-of-day (< 86400 when valid). -/
structure PyDateTime where
  date : PyDate
  sec : Nat
deriving DecidableEq

/-- CPython's `datetime.__lt__` (lexicographic on date then time-of-day). -/
def dtLt (a b : PyDateTime) : Prop :=
  dateLt a.date b.date ∨ (a.date = b.date ∧ a.sec < b.sec)

def dtLe (a b : PyDateTime) : Prop := dtLt a b ∨ a = b

instance (a b : PyDateTime) : Decidable (dtLt a b) := by unfold dtLt; infer_instance
instance (a b : PyDateTime) : Decidable (dtLe a b) := by unfold dtLe; infer_instance

/-! ### Calendar lemmas -/

theorem daysInMonth_bounds (y m : Nat) : 28 ≤ daysInMonth y m ∧ daysInMonth y m ≤ 31 := by
  unfold daysInMonth
  split_ifs <;> omega

theorem isLeapYear_iff (y : Nat) :
    isLeapYear y = true ↔ (y % 4 = 0 ∧ (y % 100 ≠ 0 ∨ y % 400 = 0)) := by
  simp [isLeapYear]

theorem daysBeforeMonth_succ (y : Nat) {m : Nat} (h1 : 1 ≤ m) (h2 : m ≤ 12) :
    daysBeforeMonth y (m + 1) = daysBeforeMonth y m + daysInMonth y m := by
  interval_cases m <;>
    simp [daysBeforeMonth, daysBeforeMonthTable, daysInMonth] <;>
    rcases Bool.eq_false_or_eq_true (isLeapYear y) with h | h <;> simp [h]

theorem daysBeforeMonth_mono (y : Nat) {m m' : Nat} (h1 : 1 ≤ m) (h : m ≤ m')
    (h2 : m' ≤ 13) : daysBeforeMonth y m ≤ daysBeforeMonth y m' := by
  induction m' with
  | zero => omega
  | succ k ih =>
    rcases Nat.lt_or_ge m (k + 1) with hlt | hge
    · have hstep := daysBeforeMonth_succ y (m := k) (by omega) (by omega)
      have := ih (by omega) (by omega)
      omega
    · have hmk : m = k + 1 := by omega
      subst hmk
      exact Nat.le_refl _

theorem daysBeforeMonth_13 (y : Nat) :
    daysBeforeMonth y 13 = if isLeapYear y then 366 else 365 := by
  rcases Bool.eq_false_or_eq_true (isLeapYear y) with h | h <;>
    simp [daysBeforeMonth, daysBeforeMonthTable, h]

set_option maxHeartbeats 1000000 in
theorem daysBeforeYear_succ (y : Nat) (hy : 1 ≤ y) :
    daysBeforeYear (y + 1) = daysBeforeYear y + daysBeforeMonth y 13 := by
  rw [daysBeforeMonth_13]
  unfold daysBeforeYear
  rcases Bool.eq_false_or_eq_true (isLeapYear y) with h | h
  · have h4 : y % 4 = 0 ∧ (y % 100 ≠ 0 ∨ y % 400 = 0) := (isLeapYear_iff y).mp h
    rw [h]
    norm_num
    omega
  · have h4 : ¬ (y % 4 = 0 ∧ (y % 100 ≠ 0 ∨ y % 400 = 0)) := by
      rw [← isLeapYear_iff, h]; simp
    rw [h]
    norm_num
    omega

theorem daysBeforeYear_mono {y y' : Nat} (h : y ≤ y') :
    daysBeforeYear y ≤ daysBeforeYear y' := by
  unfold daysBeforeYear
  have h4 : (y - 1) / 4 ≤ (y' - 1) / 4 := Nat.div_le_div_right (by omega)
  have h400 : (y - 1) / 400 ≤ (y' - 1) / 400 := Nat.div_le_div_right (by omega)
  have h100a : (y - 1) / 100 ≤ y - 1 := Nat.div_le_self _ _
  have h100b : (y' - 1) / 100 ≤ y' - 1 := Nat.div_le_self _ _
  have hb : 365 * (y - 1) + 365 * ((y' - 1) - (y - 1)) = 365 * (y' - 1) := by
    rw [← Nat.mul_add]; congr 1; omega
  omega

theorem toOrdinal_nextDay {d : PyDate} (h : d.Valid) :
    d.nextDay.toOrdinal = d.toOrdinal + 1 := by
  obtain ⟨hy, hm1, hm2, hd1, hd2⟩ := h
  unfold PyDate.nextDay PyDate.toOrdinal
  split_ifs with h1 h2
  · simp only
    omega
  · simp only
    have hstep := daysBeforeMonth_succ d.year (m := d.month) hm1 hm2
    have hdim := daysInMonth_bounds d.year d.month
    omega
  · have hm12 : d.month = 12 := by omega
    simp only
    have h13 := daysBeforeYear_succ d.year hy
    rw [daysBeforeMonth_13] at h13
    rw [hm12] at hd2 h1 ⊢
    have hdim : daysInMonth d.year 12 = 31 := by simp [daysInMonth]
    have hdbm12 : daysBeforeMonth d.year 12 = 334 + (if isLeapYear d.year then 1 else 0) := by
      simp [daysBeforeMonth, daysBeforeMonthTable]
    have hdbm1 : daysBeforeMonth (d.year + 1) 1 = 0 := by
      simp [daysBeforeMonth, daysBeforeMonthTable]
    rcases Bool.eq_false_or_eq_true (isLeapYear d.year) with hL | hL <;>
      simp only [hL, if_true, if_false, Bool.false_eq_true] at h13 hdbm12 <;>
      omega

theorem nextDay_valid {d : PyDate} (h : d.Valid) : d.nextDay.Valid := by
  obtain ⟨hy, hm1, hm2, hd1, hd2⟩ := h
  unfold PyDate.nextDay PyDate.Valid
  have hb1 := daysInMonth_bounds d.year (d.month + 1)
  have hb2 := daysInMonth_bounds (d.year + 1) 1
  split_ifs with h1 h2 <;> simp only <;> omega

theorem addDays_succ (d : PyDate) (n : Nat) :
    d.addDays (n + 1) = (d.addDays n).nextDay := by
  unfold PyDate.addDays
  exact Function.iterate_succ_apply' PyDate.nextDay n d

theorem addDays_valid {d : PyDate} (h : d.Valid) (n : Nat) : (d.addDays n).Valid := by
  induction n with
  | zero => exact h
  | succ k ih =>
    rw [addDays_succ]
    exact nextDay_valid ih

theorem toOrdinal_addDays {d : PyDate} (h : d.Valid) (n : Nat) :
    (d.addDays n).toOrdinal = d.toOrdinal + n := by
  induction n with
  | zero => rfl
  | succ k ih =>
    rw [addDays_succ, toOrdinal_nextDay (addDays_valid h k), ih]
    omega

/-- Inside a valid year, the month/day offset stays below the year's length. -/
theorem inYear_offset_lt {d : PyDate} (h : d.Valid) :
    daysBeforeMonth d.year d.month + (d.day - 1) < daysBeforeMonth d.year 13 := by
  obtain ⟨hy, hm1, hm2, hd1, hd2⟩ := h
  have hstep := daysBeforeMonth_succ d.year (m := d.month) hm1 hm2
  have hmono := @daysBeforeMonth_mono d.year (d.month + 1) 13 (by omega)
    (by omega) (by omega)
  omega

theorem toOrdinal_lt_of_dateLt {a b : PyDate} (ha : a.Valid) (hb : b.Valid)
    (h : dateLt a b) : a.toOrdinal < b.toOrdinal := by
  obtain ⟨hay, ham1, ham2, had1, had2⟩ := ha
  obtain ⟨hby, hbm1, hbm2, hbd1, hbd2⟩ := hb
  unfold PyDate.toOrdinal
  rcases h with hyy | ⟨hyy, hmm | ⟨hmm, hdd⟩⟩
  · have hlt : a.toOrdinal < daysBeforeYear (a.year + 1) := by
      have := inYear_offset_lt (d := a) ⟨hay, ham1, ham2, had1, had2⟩
      have := daysBeforeYear_succ a.year hay
      unfold PyDate.toOrdinal
      omega
    have hmono := @daysBeforeYear_mono (a.year + 1) b.year (by omega)
    have hnn : daysBeforeMonth b.year b.month + (b.day - 1) + 0 =
        daysBeforeMonth b.year b.month + (b.day - 1) := rfl
    unfold PyDate.toOrdinal at hlt
    omega
  · have hstep := daysBeforeMonth_succ a.year (m := a.month) ham1 ham2
    have hmono := @daysBeforeMonth_mono a.year (a.month + 1) b.month
      (by omega) (by omega) (by omega)
    rw [hyy] at hstep hmono had2 ⊢
    omega
  · rw [hyy, hmm]
    omega

theorem dateLt_trichotomy (a b : PyDate) : dateLt a b ∨ a = b ∨ dateLt b a := by
  obtain ⟨ay, am, ad⟩ := a
  obtain ⟨by_, bm, bd⟩ := b
  simp only [dateLt, PyDate.mk.injEq]
  omega

theorem dateLt_of_toOrdinal_lt {a b : PyDate} (ha : a.Valid) (hb : b.Valid)
    (h : a.toOrdinal < b.toOrdinal) : dateLt a b := by
  rcases dateLt_trichotomy a b with hlt | heq | hgt
  · exact hlt
  · subst heq; omega
  · have := toOrdinal_lt_of_dateLt hb ha hgt
    omega

theorem toOrdinal_le_of_dateLe {a b : PyDate} (ha : a.Valid) (hb : b.Valid)
    (h : dateLe a b) : a.toOrdinal ≤ b.toOrdinal := by
  rcases h with hlt | heq
  · exact Nat.le_of_lt (toOrdinal_lt_of_dateLt ha hb hlt)
  · subst heq; exact Nat.le_refl _

theorem dtLe_or_dtLt (a b : PyDateTime) : dtLe a b ∨ dtLt b a := by
  rcases dateLt_trichotomy a.date b.date with h | h | h
  · exact Or.inl (Or.inl (Or.inl h))
  · obtain ⟨ad, as⟩ := a
    obtain ⟨bd, bs⟩ := b
    simp only at h
    subst h
    rcases Nat.lt_trichotomy as bs with hs | hs | hs
    · exact Or.inl (Or.inl (Or.inr ⟨rfl, hs⟩))
    · subst hs; exact Or.inl (Or.inr rfl)
    · exact Or.inr (Or.inr ⟨rfl, hs⟩)
  · exact Or.inr (Or.inl h)

theorem dateLe_of_dtLe {a b : PyDateTime} (h : dtLe a b) : dateLe a.date b.date := by
  rcases h with h | h
  · rcases h with h | ⟨h, _⟩
    · exact Or.inl h
    · exact Or.inr h
  · subst h; exact Or.inr rfl

/-! ## Source enums (`app/api/recurrences/model.py`, `app/api/meetings/model.py`) -/

inductive RecurrenceFrequency
  | WEEKLY
  | BIWEEKLY
  | MONTHLY
deriving DecidableEq

inductive MeetingStatus
  | UPCOMING
  | DONE
  | CANCELED
deriving DecidableEq

/-! ## Recurrence materializer (`RecurrenceService._generate_meeting_instances`)

`Recurrence` carries the fields of `RecurrenceResponse` that the engine reads.
The `"HH:MM"` time-of-day strings are modelled by their second-of-day value
(`time.fromisoformat` parses them into a `time`; `datetime.combine` then pairs
that with a date, which in this embedding is `PyDateTime.mk`).  Identifiers are
`Nat` stand-ins for UUIDs. -/

structure Recurrence where
  id : Nat
  service_id : Nat
  client_id : Nat
  frequency : RecurrenceFrequency
  start_date : PyDateTime
  end_date : PyDateTime
  title : String
  start_time : Nat
  end_time : Nat
  price_per_hour : ℚ
  use_membership : Bool
deriving DecidableEq

structure MeetingCreateRequest where
  service_id : Nat
  client_id : Nat
  title : String
  recurrence_id : Option Nat
  membership_id : Option Nat
  start_time : PyDateTime
  end_time : PyDateTime
  price_per_hour : ℚ
  status : MeetingStatus
  paid : Bool
deriving DecidableEq

inductive GenError
  | valueError
  | fuelExhausted
deriving DecidableEq

instance {ε α : Type} [DecidableEq ε] [DecidableEq α] : DecidableEq (Except ε α) :=
  fun x y =>
  match x, y with
  | Except.ok a, Except.ok b => decidable_of_iff (a = b) (by simp)
  | Except.error a, Except.error b => decidable_of_iff (a = b) (by simp)
  | Except.ok _, Except.error _ => isFalse (by simp)
  | Except.error _, Except.ok _ => isFalse (by simp)

/-- The body of the `while` loop that builds one occurrence draft:
`datetime.combine(current_date.date(), start_time_obj).replace(tzinfo=UTC)`
and its `end` counterpart, packed into a `MeetingCreateRequest` with status
`UPCOMING` and `paid=False` (service.py lines 54-78). -/
def meetingInstanceFor (recurrence : Recurrence) (current_date : PyDateTime) :
    MeetingCreateRequest :=
  { service_id := recurrence.service_id
    client_id := recurrence.client_id
    title := recurrence.title
    recurrence_id := some recurrence.id
    membership_id := none
    start_time := ⟨current_date.date, recurrence.start_time⟩
    end_time := ⟨current_date.date, recurrence.end_time⟩
    price_per_hour := recurrence.price_per_hour
    status := MeetingStatus.UPCOMING
    paid := false }

/-- Source `datetime.replace(year=..., month=...)`: CPython validates the day against
the new month and raises `ValueError` when it is out of range. -/
def pyReplaceYearMonth (dt : PyDateTime) (y m : Nat) : Except GenError PyDateTime :=
  if 1 ≤ dt.date.day ∧ dt.date.day ≤ daysInMonth y m then
    Except.ok ⟨⟨y, m, dt.date.day⟩, dt.sec⟩
  else
    Except.error GenError.valueError

/-- The frequency step at the bottom of the loop (service.py lines 80-92):
`+= timedelta(weeks=1)`, `+= timedelta(weeks=2)`, or the hand-rolled monthly
increment with the December→January rollover. -/
def nextOccurrenceDate (frequency : RecurrenceFrequency) (current_date : PyDateTime) :
    Except GenError PyDateTime :=
  match frequency with
  | RecurrenceFrequency.WEEKLY => Except.ok ⟨current_date.date.addDays 7, current_date.sec⟩
  | RecurrenceFrequency.BIWEEKLY => Except.ok ⟨current_date.date.addDays 14, current_date.sec⟩
  | RecurrenceFrequency.MONTHLY =>
      if current_date.date.month = 12 then
        pyReplaceYearMonth current_date (current_date.date.year + 1) 1
      else
        pyReplaceYearMonth current_date current_date.date.year (current_date.date.month + 1)

/-- The `while current_date <= end_date` loop with explicit fuel.  A
`fuelExhausted` result is an artifact of the embedding; the top-level wrapper
supplies fuel proven sufficient for every valid date, so the Python loop's
behaviour corresponds exactly to the `ok`/`valueError` outcomes. -/
def generateLoop (recurrence : Recurrence) (end_date : PyDateTime) :
    Nat → PyDateTime → Except GenError (List MeetingCreateRequest)
  | 0, current_date =>
      if dtLe current_date end_date then Except.error GenError.fuelExhausted
      else Except.ok []
  | fuel + 1, current_date =>
      if dtLe current_date end_date then
        match nextOccurrenceDate recurrence.frequency current_date with
        | Except.error e => Except.error e
        | Except.ok next =>
            match generateLoop recurrence end_date fuel next with
            | Except.error e => Except.error e
            | Except.ok rest => Except.ok (meetingInstanceFor recurrence current_date :: rest)
      else Except.ok []

/-- Source `RecurrenceService._generate_meeting_instances(recurrence, start_date, end_date)`. -/
def generate_meeting_instances (recurrence : Recurrence)
    (start_date end_date : PyDateTime) : Except GenError (List MeetingCreateRequest) :=
  generateLoop recurrence end_date (end_date.date.toOrdinal + 1) start_date

/-! ### Materializer lemmas -/

theorem not_dtLe_iff (a b : PyDateTime) : ¬ dtLe a b ↔ dtLt b a := by
  constructor
  · intro h
    rcases dtLe_or_dtLt a b with h1 | h1
    · exact absurd h1 h
    · exact h1
  · intro h hle
    obtain ⟨⟨ay, am, ad⟩, as⟩ := a
    obtain ⟨⟨by_, bm, bd⟩, bs⟩ := b
    simp only [dtLe, dtLt, dateLt, PyDateTime.mk.injEq, PyDate.mk.injEq] at h hle
    omega

theorem PyDate.valid_mk {y m d : Nat} (h1 : 1 ≤ y) (h2 : 1 ≤ m) (h3 : m ≤ 12)
    (h4 : 1 ≤ d) (h5 : d ≤ daysInMonth y m) : PyDate.Valid ⟨y, m, d⟩ :=
  ⟨h1, h2, h3, h4, h5⟩

theorem toOrdinal_mk (y m d : Nat) : PyDate.toOrdinal ⟨y, m, d⟩ =
    daysBeforeYear y + daysBeforeMonth y m + (d - 1) := rfl

/-- What one frequency step guarantees (given the step succeeds): the
time-of-day is untouched, validity is preserved, the ordinal strictly grows,
and the day-of-month is preserved by the monthly branch. -/
theorem nextOccurrenceDate_ok {frequency : RecurrenceFrequency} {cur next : PyDateTime}
    (hv : cur.date.Valid) (h : nextOccurrenceDate frequency cur = Except.ok next) :
    next.sec = cur.sec ∧ next.date.Valid ∧
      cur.date.toOrdinal < next.date.toOrdinal ∧ next.date.day = cur.date.day ∨
    next.sec = cur.sec ∧ next.date.Valid ∧
      cur.date.toOrdinal < next.date.toOrdinal ∧ frequency ≠ RecurrenceFrequency.MONTHLY := by
  cases frequency with
  | WEEKLY =>
    refine Or.inr ?_
    simp only [nextOccurrenceDate, Except.ok.injEq] at h
    have hdate : next.date = cur.date.addDays 7 := by rw [← h]
    have hsec : next.sec = cur.sec := by rw [← h]
    refine ⟨hsec, ?_, ?_, by simp⟩
    · rw [hdate]
      exact addDays_valid hv 7
    · rw [hdate, toOrdinal_addDays hv 7]
      omega
  | BIWEEKLY =>
    refine Or.inr ?_
    simp only [nextOccurrenceDate, Except.ok.injEq] at h
    have hdate : next.date = cur.date.addDays 14 := by rw [← h]
    have hsec : next.sec = cur.sec := by rw [← h]
    refine ⟨hsec, ?_, ?_, by simp⟩
    · rw [hdate]
      exact addDays_valid hv 14
    · rw [hdate, toOrdinal_addDays hv 14]
      omega
  | MONTHLY =>
    obtain ⟨hy, hm1, hm2, hd1, hd2⟩ := hv
    refine Or.inl ?_
    simp only [nextOccurrenceDate] at h
    by_cases h12 : cur.date.month = 12
    · rw [if_pos h12] at h
      simp only [pyReplaceYearMonth] at h
      split_ifs at h with hday
      · cases h
        refine ⟨rfl, PyDate.valid_mk (by omega) (by omega) (by omega) hday.1 hday.2, ?_, rfl⟩
        show cur.date.toOrdinal < PyDate.toOrdinal ⟨cur.date.year + 1, 1, cur.date.day⟩
        have h13 := daysBeforeYear_succ cur.date.year hy
        have hstep := daysBeforeMonth_succ cur.date.year (m := 12) (by omega) (by omega)
        have hdim12 := daysInMonth_bounds cur.date.year 12
        have hc : cur.date.toOrdinal = daysBeforeYear cur.date.year +
            daysBeforeMonth cur.date.year cur.date.month + (cur.date.day - 1) := rfl
        have hm : PyDate.toOrdinal ⟨cur.date.year + 1, 1, cur.date.day⟩ =
            daysBeforeYear (cur.date.year + 1) + daysBeforeMonth (cur.date.year + 1) 1 +
            (cur.date.day - 1) := toOrdinal_mk _ _ _
        have hdbm1 : daysBeforeMonth (cur.date.year + 1) 1 = 0 := by
          simp [daysBeforeMonth, daysBeforeMonthTable]
        have hn : (12 : Nat) + 1 = 13 := rfl
        rw [hn] at hstep
        rw [h12] at hd2 hc
        omega
    · rw [if_neg h12] at h
      simp only [pyReplaceYearMonth] at h
      split_ifs at h with hday
      · cases h
        refine ⟨rfl, PyDate.valid_mk (by omega) (by omega) (by omega) hday.1 hday.2, ?_, rfl⟩
        show cur.date.toOrdinal <
          PyDate.toOrdinal ⟨cur.date.year, cur.date.month + 1, cur.date.day⟩
        have hstep := daysBeforeMonth_succ cur.date.year (m := cur.date.month) hm1 (by omega)
        have hdim := daysInMonth_bounds cur.date.year cur.date.month
        have hc : cur.date.toOrdinal = daysBeforeYear cur.date.year +
            daysBeforeMonth cur.date.year cur.date.month + (cur.date.day - 1) := rfl
        have hm : PyDate.toOrdinal ⟨cur.date.year, cur.date.month + 1, cur.date.day⟩ =
            daysBeforeYear cur.date.year + daysBeforeMonth cur.date.year (cur.date.month + 1) +
            (cur.date.day - 1) := toOrdinal_mk _ _ _
        omega

/-- Master invariant for the fuel-indexed loop, for runs that return normally:
(1) the result is empty exactly when the loop guard fails immediately,
(2) the drafts are strictly ascending by start datetime, and
(3) every draft is the instance the loop body builds for some valid date not
earlier than the entry date, sharing the entry time-of-day. -/
theorem generateLoop_ok {recurrence : Recurrence} {end_date : PyDateTime} :
    ∀ (fuel : Nat) (cur : PyDateTime) (l : List MeetingCreateRequest),
      cur.date.Valid →
      generateLoop recurrence end_date fuel cur = Except.ok l →
      (l = [] ↔ ¬ dtLe cur end_date) ∧
      List.Chain' (fun a b => dtLt a.start_time b.start_time) l ∧
      (∀ inst ∈ l, ∃ d : PyDate, d.Valid ∧ cur.date.toOrdinal ≤ d.toOrdinal ∧
        inst = meetingInstanceFor recurrence ⟨d, cur.sec⟩) := by
  intro fuel
  induction fuel with
  | zero =>
    intro cur l hv h
    simp only [generateLoop] at h
    by_cases hle : dtLe cur end_date
    · rw [if_pos hle] at h
      cases h
    · rw [if_neg hle] at h
      cases h
      exact ⟨by simp [hle], List.chain'_nil, by simp⟩
  | succ k ih =>
    intro cur l hv h
    simp only [generateLoop] at h
    by_cases hle : dtLe cur end_date
    · rw [if_pos hle] at h
      split at h
      · cases h
      · rename_i next hnext
        split at h
        · cases h
        · rename_i rest hrest
          cases h
          have hstep : next.sec = cur.sec ∧ next.date.Valid ∧
              cur.date.toOrdinal < next.date.toOrdinal := by
            rcases nextOccurrenceDate_ok hv hnext with
              ⟨h1, h2, h3, _⟩ | ⟨h1, h2, h3, _⟩ <;> exact ⟨h1, h2, h3⟩
          obtain ⟨hsec, hnv, hord⟩ := hstep
          obtain ⟨hemp, hchain, hmem⟩ := ih next rest hnv hrest
          have hmem' : ∀ inst ∈ rest, ∃ d : PyDate, d.Valid ∧
              cur.date.toOrdinal < d.toOrdinal ∧
              inst = meetingInstanceFor recurrence ⟨d, cur.sec⟩ := by
            intro inst hin
            obtain ⟨d, hdv, hdord, hdeq⟩ := hmem inst hin
            exact ⟨d, hdv, by omega, by rw [hdeq, hsec]⟩
          refine ⟨by simp [hle], ?_, ?_⟩
          · rw [List.chain'_cons']
            refine ⟨?_, hchain⟩
            intro b hb
            have hbmem : b ∈ rest := by
              cases rest with
              | nil => simp at hb
              | cons x xs =>
                simp only [List.head?_cons, Option.mem_def, Option.some.injEq] at hb
                subst hb
                exact List.mem_cons_self _ _
            obtain ⟨d, hdv, hdord, hdeq⟩ := hmem' b hbmem
            have hlt : dateLt cur.date d := dateLt_of_toOrdinal_lt hv hdv hdord
            rw [hdeq]
            simp only [meetingInstanceFor]
            exact Or.inl hlt
          · intro inst hin
            rcases List.mem_cons.mp hin with hhd | htl
            · refine ⟨cur.date, hv, Nat.le_refl _, ?_⟩
              rw [hhd]
            · obtain ⟨d, hdv, hdord, hdeq⟩ := hmem' inst htl
              exact ⟨d, hdv, Nat.le_of_lt hdord, hdeq⟩
    · rw [if_neg hle] at h
      cases h
      exact ⟨by simp [hle], List.chain'_nil, by simp⟩

/-- Fuel sufficiency: as long as every step the loop can take succeeds,
preserves an invariant `P`, and strictly advances the ordinal, fuel exceeding
the remaining day span guarantees a normal return. -/
theorem generateLoop_total {recurrence : Recurrence} {end_date : PyDateTime}
    (P : PyDateTime → Prop)
    (hend : end_date.date.Valid)
    (hadv : ∀ cur : PyDateTime, P cur → cur.date.Valid → dtLe cur end_date →
      ∃ next, nextOccurrenceDate recurrence.frequency cur = Except.ok next ∧
        next.date.Valid ∧ P next ∧ cur.date.toOrdinal < next.date.toOrdinal) :
    ∀ (fuel : Nat) (cur : PyDateTime), P cur → cur.date.Valid →
      end_date.date.toOrdinal < cur.date.toOrdinal + fuel →
      ∃ l, generateLoop recurrence end_date fuel cur = Except.ok l := by
  intro fuel
  induction fuel with
  | zero =>
    intro cur hP hv hbound
    have hnle : ¬ dtLe cur end_date := by
      intro hle
      have := toOrdinal_le_of_dateLe hv hend (dateLe_of_dtLe hle)
      omega
    refine ⟨[], ?_⟩
    simp only [generateLoop]
    rw [if_neg hnle]
  | succ k ih =>
    intro cur hP hv hbound
    by_cases hle : dtLe cur end_date
    · obtain ⟨next, hnext, hnv, hnP, hord⟩ := hadv cur hP hv hle
      obtain ⟨l, hl⟩ := ih next hnP hnv (by omega)
      refine ⟨meetingInstanceFor recurrence cur :: l, ?_⟩
      simp only [generateLoop, if_pos hle, hnext, hl]
    · refine ⟨[], ?_⟩
      simp only [generateLoop]
      rw [if_neg hle]

/-- For `WEEKLY` and `BIWEEKLY` patterns the loop step always succeeds. -/
theorem generate_total_of_not_monthly {recurrence : Recurrence}
    {start_date end_date : PyDateTime}
    (hfreq : recurrence.frequency ≠ RecurrenceFrequency.MONTHLY)
    (hs : start_date.date.Valid) (he : end_date.date.Valid) :
    ∃ l, generate_meeting_instances recurrence start_date end_date = Except.ok l := by
  unfold generate_meeting_instances
  refine generateLoop_total (fun _ => True) he ?_ _ start_date trivial hs (by omega)
  intro cur _ hv _
  cases hf : recurrence.frequency with
  | WEEKLY =>
    generalize hN : cur.date.addDays 7 = N
    refine ⟨⟨N, cur.sec⟩, ?_, ?_, trivial, ?_⟩
    · simp only [nextOccurrenceDate]
      rw [hN]
    · show N.Valid
      rw [← hN]
      exact addDays_valid hv 7
    · show cur.date.toOrdinal < N.toOrdinal
      rw [← hN, toOrdinal_addDays hv 7]
      omega
  | BIWEEKLY =>
    generalize hN : cur.date.addDays 14 = N
    refine ⟨⟨N, cur.sec⟩, ?_, ?_, trivial, ?_⟩
    · simp only [nextOccurrenceDate]
      rw [hN]
    · show N.Valid
      rw [← hN]
      exact addDays_valid hv 14
    · show cur.date.toOrdinal < N.toOrdinal
      rw [← hN, toOrdinal_addDays hv 14]
      omega
  | MONTHLY => exact absurd hf hfreq

/-- For a `MONTHLY` pattern whose day-of-month is at most 28 the hand-rolled
monthly increment always passes CPython's `replace` validation, so the loop
returns normally. -/
theorem generate_total_of_monthly_day28 {recurrence : Recurrence}
    {start_date end_date : PyDateTime}
    (hfreq : recurrence.frequency = RecurrenceFrequency.MONTHLY)
    (hday : start_date.date.day ≤ 28)
    (hs : start_date.date.Valid) (he : end_date.date.Valid) :
    ∃ l, generate_meeting_instances recurrence start_date end_date = Except.ok l := by
  unfold generate_meeting_instances
  refine generateLoop_total (fun c => c.date.day ≤ 28) he ?_ _ start_date hday hs (by omega)
  intro cur hP hv _
  rw [hfreq]
  obtain ⟨hy, hm1, hm2, hd1, hd2⟩ := hv
  simp only [nextOccurrenceDate]
  by_cases h12 : cur.date.month = 12
  · rw [if_pos h12]
    have hdim := daysInMonth_bounds (cur.date.year + 1) 1
    have hok : 1 ≤ cur.date.day ∧ cur.date.day ≤ daysInMonth (cur.date.year + 1) 1 := by
      omega
    refine ⟨⟨⟨cur.date.year + 1, 1, cur.date.day⟩, cur.sec⟩, ?_, ?_, ?_, ?_⟩
    · simp only [pyReplaceYearMonth]
      rw [if_pos hok]
    · exact PyDate.valid_mk (by omega) (by omega) (by omega) hok.1 hok.2
    · exact hP
    · show cur.date.toOrdinal < PyDate.toOrdinal ⟨cur.date.year + 1, 1, cur.date.day⟩
      have h13 := daysBeforeYear_succ cur.date.year hy
      have hstep := daysBeforeMonth_succ cur.date.year (m := 12) (by omega) (by omega)
      have hdim12 := daysInMonth_bounds cur.date.year 12
      have hc : cur.date.toOrdinal = daysBeforeYear cur.date.year +
          daysBeforeMonth cur.date.year cur.date.month + (cur.date.day - 1) := rfl
      have hm : PyDate.toOrdinal ⟨cur.date.year + 1, 1, cur.date.day⟩ =
          daysBeforeYear (cur.date.year + 1) + daysBeforeMonth (cur.date.year + 1) 1 +
          (cur.date.day - 1) := toOrdinal_mk _ _ _
      have hdbm1 : daysBeforeMonth (cur.date.year + 1) 1 = 0 := by
        simp [daysBeforeMonth, daysBeforeMonthTable]
      have hn : (12 : Nat) + 1 = 13 := rfl
      rw [hn] at hstep
      rw [h12] at hd2 hc
      omega
  · rw [if_neg h12]
    have hdim := daysInMonth_bounds cur.date.year (cur.date.month + 1)
    have hok : 1 ≤ cur.date.day ∧
        cur.date.day ≤ daysInMonth cur.date.year (cur.date.month + 1) := by
      omega
    refine ⟨⟨⟨cur.date.year, cur.date.month + 1, cur.date.day⟩, cur.sec⟩, ?_, ?_, ?_, ?_⟩
    · simp only [pyReplaceYearMonth]
      rw [if_pos hok]
    · exact PyDate.valid_mk (by omega) (by omega) (by omega) hok.1 hok.2
    · exact hP
    · show cur.date.toOrdinal <
        PyDate.toOrdinal ⟨cur.date.year, cur.date.month + 1, cur.date.day⟩
      have hstep := daysBeforeMonth_succ cur.date.year (m := cur.date.month) hm1 (by omega)
      have hdim2 := daysInMonth_bounds cur.date.year cur.date.month
      have hc : cur.date.toOrdinal = daysBeforeYear cur.date.year +
          daysBeforeMonth cur.date.year cur.date.month + (cur.date.day - 1) := rfl
      have hm : PyDate.toOrdinal ⟨cur.date.year, cur.date.month + 1, cur.date.day⟩ =
          daysBeforeYear cur.date.year + daysBeforeMonth cur.date.year (cur.date.month + 1) +
          (cur.date.day - 1) := toOrdinal_mk _ _ _
      omega

/-- Seconds since 0001-01-01 00:00:00: the absolute instant denoted by a naive
datetime.  `datetime` subtraction (`timedelta.total_seconds()`) is subtraction
of these values. -/
def toInstant (dt : PyDateTime) : Int :=
  (dt.date.toOrdinal : Int) * 86400 + (dt.sec : Int)

/-- Shape of one successful monthly advance: the second and the day-of-month
are reused verbatim, and the month steps by one with the December→January
year rollover. -/
theorem monthlyAdvance_shape {cur next : PyDateTime}
    (h : nextOccurrenceDate RecurrenceFrequency.MONTHLY cur = Except.ok next) :
    next.sec = cur.sec ∧ next.date.day = cur.date.day ∧
    ((cur.date.month = 12 ∧ next.date.year = cur.date.year + 1 ∧ next.date.month = 1) ∨
     (cur.date.month ≠ 12 ∧ next.date.year = cur.date.year ∧
       next.date.month = cur.date.month + 1)) := by
  simp only [nextOccurrenceDate] at h
  by_cases h12 : cur.date.month = 12
  · rw [if_pos h12] at h
    simp only [pyReplaceYearMonth] at h
    split_ifs at h with hday
    · cases h
      exact ⟨rfl, rfl, Or.inl ⟨h12, rfl, rfl⟩⟩
  · rw [if_neg h12] at h
    simp only [pyReplaceYearMonth] at h
    split_ifs at h with hday
    · cases h
      exact ⟨rfl, rfl, Or.inr ⟨h12, rfl, rfl⟩⟩

/-- A sample weekly pattern: the spec's scenario `WEEKLY`, 2024-03-01 to
2024-03-22, 14:00–15:00 UTC. -/
def sampleWeeklyRecurrence : Recurrence :=
  { id := 1, service_id := 2, client_id := 3
    frequency := RecurrenceFrequency.WEEKLY
    start_date := ⟨⟨2024, 3, 1⟩, 0⟩, end_date := ⟨⟨2024, 3, 22⟩, 0⟩
    title := "", start_time := 50400, end_time := 54000
    price_per_hour := 10, use_membership := false }

/-- A monthly pattern anchored on the 29th of January 2023 (February 2023 has
no 29th). -/
def monthlyDay29Recurrence : Recurrence :=
  { id := 1, service_id := 2, client_id := 3
    frequency := RecurrenceFrequency.MONTHLY
    start_date := ⟨⟨2023, 1, 29⟩, 0⟩, end_date := ⟨⟨2023, 3, 1⟩, 0⟩
    title := "", start_time := 50400, end_time := 54000
    price_per_hour := 10, use_membership := false }

/-- A monthly pattern anchored on the 31st of January 2024 (February has no
31st). -/
def monthlyDay31Recurrence : Recurrence :=
  { id := 1, service_id := 2, client_id := 3
    frequency := RecurrenceFrequency.MONTHLY
    start_date := ⟨⟨2024, 1, 31⟩, 0⟩, end_date := ⟨⟨2024, 3, 31⟩, 0⟩
    title := "", start_time := 50400, end_time := 54000
    price_per_hour := 10, use_membership := false }

/-- A monthly pattern crossing a December→January rollover. -/
def monthlyDecemberRecurrence : Recurrence :=
  { id := 1, service_id := 2, client_id := 3
    frequency := RecurrenceFrequency.MONTHLY
    start_date := ⟨⟨2024, 12, 15⟩, 0⟩, end_date := ⟨⟨2025, 1, 20⟩, 0⟩
    title := "", start_time := 50400, end_time := 54000
    price_per_hour := 10, use_membership := false }

/-- C1 (amended).  On every run of `_generate_meeting_instances` over valid
dates that returns normally, the result is empty exactly when the start date
is after the end date, the drafts are strictly ascending by start datetime,
and every draft pairs one calendar date with the pattern's stored start/end
times-of-day — hence has duration `end_time − start_time` — with status
`UPCOMING` and `paid = false`.  For `WEEKLY` and `BIWEEKLY` frequencies the
run always returns normally; a `MONTHLY` run may instead raise `ValueError`
(see the counterexample), which is the amendment forced on the original
claim. -/
theorem claim_C1 (recurrence : Recurrence) (start_date end_date : PyDateTime)
    (hs : start_date.date.Valid) (he : end_date.date.Valid) :
    (∀ l, generate_meeting_instances recurrence start_date end_date = Except.ok l →
      ((l = [] ↔ dtLt end_date start_date) ∧
       List.Chain' (fun a b => dtLt a.start_time b.start_time) l ∧
       ∀ inst ∈ l,
         inst.start_time.date = inst.end_time.date ∧
         inst.start_time.sec = recurrence.start_time ∧
         inst.end_time.sec = recurrence.end_time ∧
         inst.status = MeetingStatus.UPCOMING ∧
         inst.paid = false ∧
         toInstant inst.end_time - toInstant inst.start_time =
           (recurrence.end_time : Int) - (recurrence.start_time : Int))) ∧
    (recurrence.frequency ≠ RecurrenceFrequency.MONTHLY →
      ∃ l, generate_meeting_instances recurrence start_date end_date = Except.ok l) := by
  constructor
  · intro l hok
    unfold generate_meeting_instances at hok
    obtain ⟨hemp, hchain, hmem⟩ := generateLoop_ok _ start_date l hs hok
    refine ⟨?_, hchain, ?_⟩
    · rw [hemp, not_dtLe_iff]
    · intro inst hin
      obtain ⟨d, hdv, hord, hdeq⟩ := hmem inst hin
      subst hdeq
      refine ⟨rfl, rfl, rfl, rfl, rfl, ?_⟩
      simp only [meetingInstanceFor, toInstant]
      omega
  · intro hfreq
    exact generate_total_of_not_monthly hfreq hs he

/-- C1 counterexample: a `MONTHLY` pattern whose start date (2023-01-29) is on
or before its end date (2023-03-01), for which `_generate_meeting_instances`
raises `ValueError` rather than returning the non-empty ascending list the
claim promises. -/
theorem claim_C1_counterexample :
    dtLe (⟨⟨2023, 1, 29⟩, 0⟩ : PyDateTime) ⟨⟨2023, 3, 1⟩, 0⟩ ∧
    generate_meeting_instances monthlyDay29Recurrence
      ⟨⟨2023, 1, 29⟩, 0⟩ ⟨⟨2023, 3, 1⟩, 0⟩ = Except.error GenError.valueError := by
  constructor
  · decide
  · decide

/-- C1 witness: the spec's weekly scenario runs the amended claim end to end. -/
theorem claim_C1_witness :
    PyDate.Valid ⟨2024, 3, 1⟩ ∧ PyDate.Valid ⟨2024, 3, 22⟩ ∧
    ∃ l, generate_meeting_instances sampleWeeklyRecurrence
      ⟨⟨2024, 3, 1⟩, 0⟩ ⟨⟨2024, 3, 22⟩, 0⟩ = Except.ok l :=
  ⟨by decide, by decide,
    (claim_C1 sampleWeeklyRecurrence ⟨⟨2024, 3, 1⟩, 0⟩ ⟨⟨2024, 3, 22⟩, 0⟩
      (by decide) (by decide)).2 (by decide)⟩

/-- C7 (amended).  Every successful monthly advance reuses the same numeric
day-of-month and steps the month by one, rolling December over to January of
the next year (no skipped or duplicated month); and a `MONTHLY`
materialization over valid dates is total whenever the start day-of-month is
at most 28.  It is *not* total in general: it raises `ValueError` when the
day-of-month is missing from a traversed month (see the counterexample),
which is the amendment forced on the original claim. -/
theorem claim_C7 (recurrence : Recurrence) (start_date end_date : PyDateTime)
    (hfreq : recurrence.frequency = RecurrenceFrequency.MONTHLY)
    (hs : start_date.date.Valid) (he : end_date.date.Valid) :
    (∀ cur next : PyDateTime,
      nextOccurrenceDate recurrence.frequency cur = Except.ok next →
      next.sec = cur.sec ∧ next.date.day = cur.date.day ∧
      ((cur.date.month = 12 ∧ next.date.year = cur.date.year + 1 ∧
          next.date.month = 1) ∨
       (cur.date.month ≠ 12 ∧ next.date.year = cur.date.year ∧
          next.date.month = cur.date.month + 1))) ∧
    (start_date.date.day ≤ 28 →
      ∃ l, generate_meeting_instances recurrence start_date end_date = Except.ok l) := by
  constructor
  · intro cur next h
    rw [hfreq] at h
    exact monthlyAdvance_shape h
  · intro hday
    exact generate_total_of_monthly_day28 hfreq hday hs he

/-- C7 counterexample: the claim promises totality, but a `MONTHLY` pattern
starting 2024-01-31 with end date 2024-03-31 raises `ValueError` when the
increment lands on the nonexistent February 31st. -/
theorem claim_C7_counterexample :
    dtLe (⟨⟨2024, 1, 31⟩, 0⟩ : PyDateTime) ⟨⟨2024, 3, 31⟩, 0⟩ ∧
    generate_meeting_instances monthlyDay31Recurrence
      ⟨⟨2024, 1, 31⟩, 0⟩ ⟨⟨2024, 3, 31⟩, 0⟩ = Except.error GenError.valueError := by
  constructor
  · decide
  · decide

/-- C7 witness: a December-anchored monthly pattern (day 15) satisfies the
amended claim, in particular materializing across the year rollover. -/
theorem claim_C7_witness :
    PyDate.Valid ⟨2024, 12, 15⟩ ∧ (15 : Nat) ≤ 28 ∧
    ∃ l, generate_meeting_instances monthlyDecemberRecurrence
      ⟨⟨2024, 12, 15⟩, 0⟩ ⟨⟨2025, 1, 20⟩, 0⟩ = Except.ok l :=
  ⟨by decide, by decide,
    (claim_C7 monthlyDecemberRecurrence ⟨⟨2024, 12, 15⟩, 0⟩ ⟨⟨2025, 1, 20⟩, 0⟩
      rfl (by decide) (by decide)).2 (by decide)⟩

/-! ## Occurrence store model

Meetings live in a list standing for the `meetings` table (ids unique in any
reachable store).  Instants are `Int` seconds (see the header); `ensure_utc` is
the identity on naive UTC datetimes and is therefore omitted.  The scheduler's
task store is a list of `(meeting id, run date)` pairs with at most one entry
per id. -/

abbrev Instant := Int

/-- Source `datetime.date()` as a day index: floor division by 86400. -/
def dateOfInstant (t : Instant) : Int := t.fdiv 86400

/-- Source `datetime.combine(date, time_of_day)`. -/
def combineInstant (d : Int) (tod : Int) : Instant := d * 86400 + tod

structure Meeting where
  id : Nat
  service_id : Nat
  client_id : Nat
  title : Option String
  recurrence_id : Option Nat
  membership_id : Option Nat
  start_time : Instant
  end_time : Instant
  price_per_hour : ℚ
  price_total : ℚ
  status : MeetingStatus
  paid : Bool
deriving DecidableEq

/-- Source `MeetingUpdateRequest`.  `update_scope` is kept as the raw string the
service code compares against `RecurrenceUpdateScope` values (the enum derives
from `str`, so enum members and plain strings compare interchangeably in the
source). -/
structure MeetingUpdateRequest where
  service_id : Option Nat := none
  client_id : Option Nat := none
  title : Option String := none
  recurrence_id : Option Nat := none
  membership_id : Option Nat := none
  start_time : Option Instant := none
  end_time : Option Instant := none
  price_per_hour : Option ℚ := none
  status : Option MeetingStatus := none
  paid : Option Bool := none
  update_scope : Option String := none
deriving DecidableEq

/-- Source `storage.get_by_id`. -/
def getById (meetings : List Meeting) (mid : Nat) : Option Meeting :=
  meetings.find? (fun m => m.id == mid)

/-- Source `storage.update` on the primary key (ids are unique, so updating the first
match is updating the row). -/
def updateById (meetings : List Meeting) (mid : Nat) (f : Meeting → Meeting) :
    List Meeting :=
  match meetings with
  | [] => []
  | m :: rest => if m.id == mid then f m :: rest else m :: updateById rest mid f

/-- Source `SchedulerService.schedule_meeting_status_update`: removes any existing job
for the id and schedules a new one at the meeting's end time
(`replace_existing=True`). -/
def scheduleMeetingStatusUpdate (jobs : List (Nat × Instant)) (mid : Nat)
    (runDate : Instant) : List (Nat × Instant) :=
  (jobs.filter (fun j => j.1 != mid)) ++ [(mid, runDate)]

/-- Source `SchedulerService.cancel_meeting_status_update`. -/
def cancelMeetingStatusUpdate (jobs : List (Nat × Instant)) (mid : Nat) :
    List (Nat × Instant) :=
  jobs.filter (fun j => j.1 != mid)

/-- Source `scheduler.get_job(job_id) is not None`. -/
def hasJob (jobs : List (Nat × Instant)) (mid : Nat) : Bool :=
  jobs.any (fun j => j.1 == mid)

/-- The rate the price recomputation in `_update_single_meeting` multiplies by:
`update_data.price_per_hour or current_meeting.price_per_hour`.  Python `or`
treats `0.0` as falsy, so a requested rate of exactly 0 silently falls back to
the current rate here (while the stored `price_per_hour` field *is* updated to
0 by the `is not None` branch above it). -/
def effectiveRateForTotal (upd : MeetingUpdateRequest) (current : Meeting) : ℚ :=
  match upd.price_per_hour with
  | none => current.price_per_hour
  | some r => if r = 0 then current.price_per_hour else r

/-- The net effect of `_update_single_meeting`'s `update_fields` dictionary on
one row: each `is not None` field overwrites, and `price_total` is recomputed
exactly when start, end or rate is present in the request (meetings/service.py
lines 158-207). -/
def applyUpdateFields (upd : MeetingUpdateRequest) (current : Meeting) : Meeting :=
  let new_start := upd.start_time.getD current.start_time
  let new_end := upd.end_time.getD current.end_time
  let new_total :=
    if upd.start_time.isSome ∨ upd.end_time.isSome ∨ upd.price_per_hour.isSome then
      ((new_end - new_start : Int) : ℚ) / 3600 * effectiveRateForTotal upd current
    else current.price_total
  { current with
    service_id := upd.service_id.getD current.service_id
    client_id := upd.client_id.getD current.client_id
    title := match upd.title with | none => current.title | some t => some t
    recurrence_id :=
      match upd.recurrence_id with | none => current.recurrence_id | some r => some r
    membership_id :=
      match upd.membership_id with | none => current.membership_id | some m => some m
    start_time := new_start
    end_time := new_end
    price_per_hour := upd.price_per_hour.getD current.price_per_hour
    status := upd.status.getD current.status
    paid := upd.paid.getD current.paid
    price_total := new_total }

/-- Source `update_meeting_status` (scheduler_service.py lines 840-939, the direct
database branch): re-read the row; missing row, a still-future end instant, or
a status other than `upcoming` leave the store untouched; otherwise the status
becomes `done`. -/
def update_meeting_status (now : Instant) (meetings : List Meeting) (mid : Nat) :
    List Meeting :=
  match getById meetings mid with
  | none => meetings
  | some meeting =>
      if now < meeting.end_time then meetings
      else if meeting.status = MeetingStatus.UPCOMING then
        updateById meetings mid (fun m => { m with status := MeetingStatus.DONE })
      else meetings

/-- Summary record built by `ensure_scheduled_jobs_for_existing_meetings`. -/
structure RecoverySummary where
  total_meetings : Nat
  jobs_scheduled : Nat
  jobs_already_exist : Nat
  meetings_skipped : Nat
deriving DecidableEq

/-- Source `MeetingService.ensure_scheduled_jobs_for_existing_meetings` (lines
601-700).  It reads the upcoming meetings and the job store; it never writes a
meeting row.  A meeting whose end instant has passed is only counted in
`meetings_skipped`; a future one is armed unless a job already exists.
`recoveryStep` is one iteration of its `for meeting in upcoming_meetings`
loop body (the job store and the counters are the state the loop threads). -/
def recoveryStep (now : Instant) (acc : List (Nat × Instant) × RecoverySummary)
    (m : Meeting) : List (Nat × Instant) × RecoverySummary :=
  if m.end_time ≤ now then
    (acc.1, { acc.2 with meetings_skipped := acc.2.meetings_skipped + 1 })
  else if hasJob acc.1 m.id then
    (acc.1, { acc.2 with jobs_already_exist := acc.2.jobs_already_exist + 1 })
  else
    (scheduleMeetingStatusUpdate acc.1 m.id m.end_time,
     { acc.2 with jobs_scheduled := acc.2.jobs_scheduled + 1 })

/-- The whole recovery pass: fold `recoveryStep` over the upcoming meetings,
starting from the current job store and zeroed counters. -/
def ensureScheduledJobsForExistingMeetings (now : Instant) (meetings : List Meeting)
    (jobs : List (Nat × Instant)) : List (Nat × Instant) × RecoverySummary :=
  let upcoming := meetings.filter (fun m => m.status == MeetingStatus.UPCOMING)
  upcoming.foldl (recoveryStep now) (jobs, ⟨upcoming.length, 0, 0, 0⟩)

inductive ServiceError
  | meetingNotFound
  | invalidUpdateScope (scope : String)
  | invalidDeleteScope (scope : String)
  | membershipUnavailable
deriving DecidableEq

/-! ## Scoped mutation engine, recurrence-service path
(`RecurrenceService.update_recurring_meeting` and
`RecurrenceService._update_recurring_meetings_with_scope`).

The functions below compute the per-sibling single-meeting update requests the
service issues; `applyIssuedUpdates` folds them into the store the way the
issued `MeetingService.update_meeting` calls do (each lands in
`_update_single_meeting` because `update_scope` is cleared). -/

/-- The update request built for one sibling in the loop body (recurrences
service.py lines 551-576).  The source's `None`-check on the offsets is always
true there because both offset branches assign timedeltas, so the offset arm
is taken unconditionally. -/
def scopedSiblingUpdate (update_data : MeetingUpdateRequest) (isTarget : Bool)
    (new_start new_end : Instant) (off_s off_e : Int) (m : Meeting) :
    MeetingUpdateRequest :=
  { service_id := update_data.service_id
    client_id := update_data.client_id
    title := update_data.title
    price_per_hour := update_data.price_per_hour
    status := update_data.status
    paid := update_data.paid
    update_scope := none
    start_time := some (if isTarget then new_start else m.start_time + off_s)
    end_time := some (if isTarget then new_end else m.end_time + off_e) }

/-- Source `RecurrenceService._update_recurring_meetings_with_scope` (lines 436-587)
as the list of `(meeting id, single update request)` pairs it issues, in
order. -/
def updateRecurringMeetingsWithScope (meetings : List Meeting)
    (recurrence : Option Recurrence) (original_meeting : Meeting)
    (update_data : MeetingUpdateRequest) (scope : String) :
    List (Nat × MeetingUpdateRequest) :=
  let all_meetings :=
    meetings.filter (fun m => m.recurrence_id == original_meeting.recurrence_id)
  -- `all_meetings.sort(key=...)`: CPython's sort is stable; insertion sort is
  -- the simplest stable sort and computes the same list.
  let sorted_meetings :=
    List.insertionSort (fun a b => a.start_time ≤ b.start_time) all_meetings
  let meetings_to_update :=
    if scope == "future" then
      sorted_meetings.filter (fun m => original_meeting.start_time ≤ m.start_time)
    else sorted_meetings
  match recurrence with
  | some rec =>
      let meeting_date := dateOfInstant original_meeting.start_time
      let original_pattern_start := combineInstant meeting_date (rec.start_time : Int)
      let original_pattern_end := combineInstant meeting_date (rec.end_time : Int)
      let new_start := update_data.start_time.getD original_pattern_start
      let new_end := update_data.end_time.getD original_pattern_end
      let time_offset_start := new_start - original_pattern_start
      let time_offset_end := new_end - original_pattern_end
      meetings_to_update.filterMap (fun m =>
        let should_update :=
          if update_data.start_time.isSome ∨ update_data.end_time.isSome then
            let pattern_start :=
              combineInstant (dateOfInstant m.start_time) (rec.start_time : Int)
            let pattern_end :=
              combineInstant (dateOfInstant m.start_time) (rec.end_time : Int)
            |m.start_time - pattern_start| < 60 ∧ |m.end_time - pattern_end| < 60
          else True
        if should_update then
          some (m.id, scopedSiblingUpdate update_data (m.id == original_meeting.id)
            new_start new_end time_offset_start time_offset_end m)
        else none)
  | none =>
      let original_pattern_start := original_meeting.start_time
      let original_pattern_end := original_meeting.end_time
      let new_start := update_data.start_time.getD original_pattern_start
      let new_end := update_data.end_time.getD original_pattern_end
      let time_offset_start := new_start - original_pattern_start
      let time_offset_end := new_end - original_pattern_end
      meetings_to_update.map (fun m =>
        (m.id, scopedSiblingUpdate update_data (m.id == original_meeting.id)
          new_start new_end time_offset_start time_offset_end m))

/-- Folding the issued single-meeting updates into the store, the way the
issued `update_meeting` calls do. -/
def applyIssuedUpdates (meetings : List Meeting)
    (issued : List (Nat × MeetingUpdateRequest)) : List Meeting :=
  issued.foldl (fun ms iu => updateById ms iu.1 (applyUpdateFields iu.2)) meetings

/-- Source `RecurrenceService.delete_recurring_meeting` (lines 622-655) as the list of
meeting ids it deletes.  Its final `else` calls `MeetingService.delete_meeting`
*without* a scope, so the `delete_scope and ...` guard there is falsy and the
deletion is a plain single deletion: unknown scopes silently fall back to
deleting only the target, and no validation ever runs on this path. -/
def recurrenceServiceDeleteRecurringMeeting (meetings : List Meeting)
    (meeting_id : Nat) (delete_scope : String) : Except ServiceError (List Nat) :=
  match getById meetings meeting_id with
  | none => Except.error ServiceError.meetingNotFound
  | some meeting =>
      if meeting.recurrence_id.isNone then Except.ok [meeting_id]
      else
        let all_meetings :=
          meetings.filter (fun m => m.recurrence_id == meeting.recurrence_id)
        if delete_scope == "this_meeting_only" then Except.ok [meeting_id]
        else if delete_scope == "this_and_future" then
          Except.ok ((all_meetings.filter
            (fun m => meeting.start_time ≤ m.start_time)).map (fun m => m.id))
        else if delete_scope == "all_meetings" then
          Except.ok (all_meetings.map (fun m => m.id))
        else Except.ok [meeting_id]

/-! ## Scoped mutation engine, meeting-service path
(`MeetingService._update_recurring_meeting`, `_delete_recurring_meeting`). -/

/-- The request built for one future/all sibling (meetings/service.py lines
345-374 and 418-447): non-time fields are copied, and the time offsets are
applied when the edit changed times. -/
def meetingServiceSiblingUpdate (update_data : MeetingUpdateRequest)
    (offsets : Option (Int × Int)) (m : Meeting) : MeetingUpdateRequest :=
  { service_id := update_data.service_id
    client_id := update_data.client_id
    title := update_data.title
    recurrence_id := update_data.recurrence_id
    membership_id := update_data.membership_id
    price_per_hour := update_data.price_per_hour
    status := update_data.status
    paid := update_data.paid
    update_scope := none
    start_time :=
      match offsets with
      | some o => some (m.start_time + o.1)
      | none => update_data.start_time
    end_time :=
      match offsets with
      | some o => some (m.end_time + o.2)
      | none => update_data.end_time }

/-- Source `MeetingService._update_recurring_meeting` (lines 225-453) as the list of
`(meeting id, single update request)` pairs it issues.  Scope validation
happens before any write and is guarded by Python truthiness
(`if update_data.update_scope and update_data.update_scope not in [...]`), so
a falsy scope (`None` or `""`) never raises; the sibling query in the
`this_and_future` branch filters on status `upcoming`, and both bulk branches
compare siblings against the pattern's time-of-day projected onto the
*target's* date. -/
def meetingServiceUpdateRecurringMeeting (meetings : List Meeting)
    (recurrence : Option Recurrence) (meeting : Meeting)
    (update_data : MeetingUpdateRequest) :
    Except ServiceError (List (Nat × MeetingUpdateRequest)) :=
  let valid_scopes : List String := ["this_meeting_only", "this_and_future", "all_meetings"]
  let scope_invalid : Bool :=
    match update_data.update_scope with
    | some scope_value => scope_value != "" && ! valid_scopes.contains scope_value
    | none => false
  if scope_invalid then
    Except.error (ServiceError.invalidUpdateScope (update_data.update_scope.getD ("")))
  else
    let offsets :=
      if update_data.start_time.isSome ∨ update_data.end_time.isSome then
        match recurrence with
        | some rec =>
            let meeting_date := dateOfInstant meeting.start_time
            let original_start := combineInstant meeting_date (rec.start_time : Int)
            let original_end := combineInstant meeting_date (rec.end_time : Int)
            let new_start := update_data.start_time.getD original_start
            let new_end := update_data.end_time.getD original_end
            some (new_start - original_start, new_end - original_end)
        | none =>
            let new_start := update_data.start_time.getD meeting.start_time
            let new_end := update_data.end_time.getD meeting.end_time
            some (new_start - meeting.start_time, new_end - meeting.end_time)
      else none
    if update_data.update_scope == some ("this_meeting_only") then
      Except.ok [(meeting.id, update_data)]
    else if update_data.update_scope == some ("this_and_future") then
      match recurrence with
      | some rec =>
          let meeting_date := dateOfInstant meeting.start_time
          let original_pattern_start := combineInstant meeting_date (rec.start_time : Int)
          let original_pattern_end := combineInstant meeting_date (rec.end_time : Int)
          let future_meetings :=
            (meetings.filter (fun m =>
              m.recurrence_id == meeting.recurrence_id &&
              m.status == MeetingStatus.UPCOMING)).filter (fun m =>
                meeting.start_time < m.start_time ∧
                |m.start_time - original_pattern_start| < 60 ∧
                |m.end_time - original_pattern_end| < 60)
          Except.ok ((meeting.id, update_data) ::
            future_meetings.map (fun m =>
              (m.id, meetingServiceSiblingUpdate update_data offsets m)))
      | none => Except.ok [(meeting.id, update_data)]
    else if update_data.update_scope == some ("all_meetings") then
      match recurrence with
      | some rec =>
          let meeting_date := dateOfInstant meeting.start_time
          let original_pattern_start := combineInstant meeting_date (rec.start_time : Int)
          let original_pattern_end := combineInstant meeting_date (rec.end_time : Int)
          let all_meetings :=
            (meetings.filter (fun m =>
              m.recurrence_id == meeting.recurrence_id)).filter (fun m =>
                |m.start_time - original_pattern_start| < 60 ∧
                |m.end_time - original_pattern_end| < 60)
          Except.ok (all_meetings.map (fun m =>
              (m.id, meetingServiceSiblingUpdate update_data offsets m)) ++
            [(meeting.id, update_data)])
      | none => Except.ok [(meeting.id, update_data)]
    else Except.ok [(meeting.id, update_data)]

/-- Source `MeetingService._delete_recurring_meeting` (lines 477-529) as the list of
deleted meeting ids; unknown scopes raise before any deletion. -/
def meetingServiceDeleteRecurringMeeting (meetings : List Meeting)
    (meeting : Meeting) (delete_scope : String) : Except ServiceError (List Nat) :=
  let valid_scopes : List String := ["this_meeting_only", "this_and_future", "all_meetings"]
  if ¬ valid_scopes.contains delete_scope then
    Except.error (ServiceError.invalidDeleteScope delete_scope)
  else if delete_scope == "this_meeting_only" then Except.ok [meeting.id]
  else if delete_scope == "this_and_future" then
    Except.ok (meeting.id ::
      ((meetings.filter (fun m =>
        m.recurrence_id == meeting.recurrence_id &&
        m.status == MeetingStatus.UPCOMING)).filter (fun m =>
          meeting.start_time < m.start_time)).map (fun m => m.id))
  else if delete_scope == "all_meetings" then
    Except.ok ((meetings.filter (fun m =>
      m.recurrence_id == meeting.recurrence_id)).map (fun m => m.id))
  else Except.ok [meeting.id]

/-- Python truthiness of the optional scope string: `None` and `""` are
falsy. -/
def scopeTruthy : Option String → Bool
  | none => false
  | some s => s != ""

/-- Source `MeetingService.update_meeting` (lines 135-153) as the issued pairs:
when the row is recurring and the request carries a *truthy* `update_scope`,
it routes into `_update_recurring_meeting` (whose scope validation may raise);
in every other case it is a plain single-meeting update. -/
def meetingServiceUpdateMeeting (meetings : List Meeting)
    (recurrence : Option Recurrence) (meeting : Meeting)
    (update_data : MeetingUpdateRequest) :
    Except ServiceError (List (Nat × MeetingUpdateRequest)) :=
  if meeting.recurrence_id.isSome && scopeTruthy update_data.update_scope then
    meetingServiceUpdateRecurringMeeting meetings recurrence meeting update_data
  else
    Except.ok [(meeting.id, update_data)]

/-- Source `RecurrenceService.update_recurring_meeting` (lines 364-434): the scope
dispatch.  The single-meeting, `this_meeting_only` and final-else branches all
delegate to `MeetingService.update_meeting` with the request unchanged, so an
unrecognized *truthy* scope on a recurring meeting reaches
`_update_recurring_meeting` through the delegation and raises there, while a
falsy scope (`None` or `""`) ends in a plain single-meeting update. -/
def recurrenceServiceUpdateRecurringMeeting (meetings : List Meeting)
    (recurrence : Option Recurrence) (meeting_id : Nat)
    (update_data : MeetingUpdateRequest) :
    Except ServiceError (List (Nat × MeetingUpdateRequest)) :=
  match getById meetings meeting_id with
  | none => Except.error ServiceError.meetingNotFound
  | some meeting =>
      if meeting.recurrence_id.isNone then
        meetingServiceUpdateMeeting meetings recurrence meeting update_data
      else
        match update_data.update_scope with
        | some scope_value =>
            if scope_value == "this_meeting_only" then
              meetingServiceUpdateMeeting meetings recurrence meeting update_data
            else if scope_value == "this_and_future" then
              Except.ok (updateRecurringMeetingsWithScope meetings recurrence meeting
                update_data ("future"))
            else if scope_value == "all_meetings" then
              Except.ok (updateRecurringMeetingsWithScope meetings recurrence meeting
                update_data ("all"))
            else meetingServiceUpdateMeeting meetings recurrence meeting update_data
        | none => meetingServiceUpdateMeeting meetings recurrence meeting update_data

/-! ## Quota allocator and recurrence creation
(`RecurrenceService.create_recurrence`, `MeetingService.create_meeting`).

The two membership-service methods the creation flow calls,
`get_available_active_membership` and `get_membership_available_meetings`, are
invoked from `recurrences/service.py` but are not defined anywhere under the
repository sources; they are modelled from the spec (§4.2 Quota Allocator)
below.  The same holds for `check_membership_availability` called by
`create_meeting`, and for `use_membership`, which `create_recurrence` reads
from the create request although the pydantic model does not declare it. -/

inductive MembershipStatus
  | ACTIVE
  | EXPIRED
  | CANCELED
deriving DecidableEq

structure MembershipRecord where
  id : Nat
  client_id : Nat
  total_meetings : Nat
  price_per_meeting : ℚ
  status : MembershipStatus
deriving DecidableEq

/-- Linked occurrences with status `done`. -/
def doneMeetingsCount (meetings : List Meeting) (membership_id : Nat) : Nat :=
  (meetings.filter (fun m =>
    m.membership_id == some membership_id && m.status == MeetingStatus.DONE)).length

/-- Linked occurrences with status `upcoming` (the "scheduled" ones). -/
def scheduledMeetingsCount (meetings : List Meeting) (membership_id : Nat) : Nat :=
  (meetings.filter (fun m =>
    m.membership_id == some membership_id && m.status == MeetingStatus.UPCOMING)).length

/-- Modelled from the spec: `MembershipService.get_membership_available_meetings`
is called by the creation flow but missing from the sources; per §4.2 the
authoritative count is `available = total_credits − (done_count +
scheduled_count)`. -/
def availableMeetings (meetings : List Meeting) (membership : MembershipRecord) : Int :=
  (membership.total_meetings : Int) -
    ((doneMeetingsCount meetings membership.id : Int) +
     (scheduledMeetingsCount meetings membership.id : Int))

/-- Modelled from the spec: `MembershipService.get_available_active_membership`
is called by the creation flow but missing from the sources; per §4.2 it
returns an `ACTIVE` membership of the `(owner, client)` pair having at least
one available credit. -/
def getAvailableActiveMembership (memberships : List MembershipRecord)
    (meetings : List Meeting) (client_id : Nat) : Option MembershipRecord :=
  memberships.find? (fun mb =>
    mb.client_id == client_id && mb.status == MembershipStatus.ACTIVE &&
      decide (1 ≤ availableMeetings meetings mb))

/-- Modelled from the spec: `MembershipService.check_membership_availability`
is called by `create_meeting` but missing from the sources; it reports whether
the membership still has an available spot. -/
def checkMembershipAvailability (memberships : List MembershipRecord)
    (meetings : List Meeting) (membership_id : Nat) : Bool :=
  match memberships.find? (fun mb => mb.id == membership_id) with
  | none => false
  | some mb => decide (1 ≤ availableMeetings meetings mb)

structure SystemState where
  meetings : List Meeting
  memberships : List MembershipRecord
  jobs : List (Nat × Instant)
  next_id : Nat
deriving DecidableEq

/-- The row `create_meeting` inserts: `price_total = duration_hours ×
price_per_hour` with `duration_hours = (end−start).total_seconds()/3600`
(meetings/service.py lines 93-117).  Fresh ids come from a counter standing in
for `uuid4()`. -/
def mkMeetingRow (mid : Nat) (inst : MeetingCreateRequest) : Meeting :=
  let start_instant := toInstant inst.start_time
  let end_instant := toInstant inst.end_time
  { id := mid
    service_id := inst.service_id
    client_id := inst.client_id
    title := some inst.title
    recurrence_id := inst.recurrence_id
    membership_id := inst.membership_id
    start_time := start_instant
    end_time := end_instant
    price_per_hour := inst.price_per_hour
    price_total := ((end_instant - start_instant : Int) : ℚ) / 3600 * inst.price_per_hour
    status := inst.status
    paid := inst.paid }

/-- Source `MeetingService.create_meeting` (lines 76-133): validates membership
availability when a membership is attached, inserts the row, and arms a status
update job when the new meeting is `upcoming`.  (Setting the membership's lazy
start date touches only the membership row's `start_date` and is outside the
modelled fields.) -/
def create_meeting (st : SystemState) (inst : MeetingCreateRequest) :
    Except ServiceError (SystemState × Meeting) :=
  let avail_ok :=
    match inst.membership_id with
    | some mbid => checkMembershipAvailability st.memberships st.meetings mbid
    | none => true
  if avail_ok then
    let row := mkMeetingRow st.next_id inst
    let jobs :=
      if row.status = MeetingStatus.UPCOMING then
        scheduleMeetingStatusUpdate st.jobs row.id row.end_time
      else st.jobs
    Except.ok ({ meetings := st.meetings ++ [row], memberships := st.memberships,
                 jobs := jobs, next_id := st.next_id + 1 }, row)
  else Except.error ServiceError.membershipUnavailable

/-- Source `MeetingService._update_single_meeting` (lines 154-223) on the store: apply
the field updates, then re-arm or cancel the status job when the end time
changed.  (The membership-status refresh on a transition to `done` touches only
membership rows and is outside the modelled fields.) -/
def updateSingleMeeting (st : SystemState) (mid : Nat)
    (update_data : MeetingUpdateRequest) : Except ServiceError (SystemState × Meeting) :=
  match getById st.meetings mid with
  | none => Except.error ServiceError.meetingNotFound
  | some current =>
      let updated := applyUpdateFields update_data current
      let meetings := updateById st.meetings mid (applyUpdateFields update_data)
      let jobs :=
        if update_data.end_time.isSome then
          if updated.status = MeetingStatus.UPCOMING then
            scheduleMeetingStatusUpdate st.jobs mid updated.end_time
          else cancelMeetingStatusUpdate st.jobs mid
        else st.jobs
      Except.ok ({ st with meetings := meetings, jobs := jobs }, updated)

/-- The `for _i, instance in enumerate(instances_to_create)` stamping loop
(recurrences/service.py lines 277-281): instances with index below the
membership's available count get the membership price and id. -/
def stampInstances (membership : MembershipRecord) (available : Int) :
    Nat → List MeetingCreateRequest → List MeetingCreateRequest
  | _, [] => []
  | i, inst :: rest =>
      (if (i : Int) < available then
        { inst with price_per_hour := membership.price_per_meeting,
                    membership_id := some membership.id }
      else inst) :: stampInstances membership available (i + 1) rest

/-- The sequential `create_meeting` calls of the creation loop; an exception
from any create aborts the remainder (as the un-caught Python exception
would). -/
def createMeetingsSequentially (st : SystemState) :
    List MeetingCreateRequest → Except ServiceError (SystemState × List Meeting)
  | [] => Except.ok (st, [])
  | inst :: rest =>
      match create_meeting st inst with
      | Except.error e => Except.error e
      | Except.ok (st1, row) =>
          match createMeetingsSequentially st1 rest with
          | Except.error e => Except.error e
          | Except.ok (st2, rows) => Except.ok (st2, row :: rows)

inductive RecurrenceCreateError
  | materializeError (e : GenError)
  | meetingError (e : ServiceError)
deriving DecidableEq

/-- Source `RecurrenceService.create_recurrence` (lines 209-298): resolve the optional
membership, materialize, cap at the available count, stamp capped instances
with the membership price, and create the instances through
`MeetingService.create_meeting`. -/
def create_recurrence (st : SystemState) (recurrence : Recurrence) :
    Except RecurrenceCreateError (SystemState × List Meeting) :=
  let active_membership :=
    if recurrence.use_membership then
      getAvailableActiveMembership st.memberships st.meetings recurrence.client_id
    else none
  match generate_meeting_instances recurrence recurrence.start_date recurrence.end_date with
  | Except.error e => Except.error (RecurrenceCreateError.materializeError e)
  | Except.ok all_instances =>
      match active_membership with
      | some membership =>
          let available := availableMeetings st.meetings membership
          let instances_to_create :=
            if (all_instances.length : Int) > available then
              all_instances.take available.toNat
            else all_instances
          match createMeetingsSequentially st
              (stampInstances membership available 0 instances_to_create) with
          | Except.error e => Except.error (RecurrenceCreateError.meetingError e)
          | Except.ok (st2, rows) => Except.ok (st2, rows)
      | none =>
          match createMeetingsSequentially st all_instances with
          | Except.error e => Except.error (RecurrenceCreateError.meetingError e)
          | Except.ok (st2, rows) => Except.ok (st2, rows)

/-! ### Store helper lemmas -/

theorem updateById_of_getById_none {meetings : List Meeting} {mid : Nat}
    (f : Meeting → Meeting) (h : getById meetings mid = none) :
    updateById meetings mid f = meetings := by
  induction meetings with
  | nil => rfl
  | cons m rest ih =>
    by_cases hm : m.id = mid
    · simp [getById, List.find?, hm] at h
    · simp only [getById, List.find?] at h
      rw [show (m.id == mid) = false by simp [hm]] at h
      simp only [updateById]
      rw [if_neg (by simp [hm])]
      rw [ih h]

theorem getById_updateById_self {meetings : List Meeting} {mid : Nat}
    {f : Meeting → Meeting} (hf : ∀ m, (f m).id = m.id) :
    getById (updateById meetings mid f) mid = (getById meetings mid).map f := by
  induction meetings with
  | nil => rfl
  | cons m rest ih =>
    by_cases hm : m.id = mid
    · simp only [updateById]
      rw [if_pos (by simp [hm])]
      simp only [getById, List.find?]
      rw [show ((f m).id == mid) = true by simp [hf m, hm],
        show (m.id == mid) = true by simp [hm]]
      rfl
    · simp only [updateById]
      rw [if_neg (by simp [hm])]
      simp only [getById, List.find?]
      rw [show (m.id == mid) = false by simp [hm]]
      exact ih

theorem getById_updateById_ne {meetings : List Meeting} {mid k : Nat}
    {f : Meeting → Meeting} (hf : ∀ m, (f m).id = m.id) (hne : k ≠ mid) :
    getById (updateById meetings mid f) k = getById meetings k := by
  induction meetings with
  | nil => rfl
  | cons m rest ih =>
    by_cases hm : m.id = mid
    · have hbne : (mid == k) = false := by
        simp only [beq_eq_false_iff_ne]
        exact fun h => hne h.symm
      simp only [updateById]
      rw [if_pos (by simp [hm])]
      simp only [getById, List.find?]
      rw [show ((f m).id == k) = false from by rw [hf m, hm]; exact hbne,
        show (m.id == k) = false from by rw [hm]; exact hbne]
    · simp only [updateById]
      rw [if_neg (by simp [hm])]
      simp only [getById, List.find?]
      cases hk : (m.id == k) with
      | true => rfl
      | false => exact ih

/-! ### C4: the deferred status transition -/

theorem update_meeting_status_of_none {now : Instant} {meetings : List Meeting}
    {mid : Nat} (h : getById meetings mid = none) :
    update_meeting_status now meetings mid = meetings := by
  simp [update_meeting_status, h]

theorem update_meeting_status_of_future {now : Instant} {meetings : List Meeting}
    {mid : Nat} {meeting : Meeting} (h : getById meetings mid = some meeting)
    (hlt : now < meeting.end_time) :
    update_meeting_status now meetings mid = meetings := by
  simp [update_meeting_status, h, hlt]

theorem update_meeting_status_of_not_upcoming {now : Instant} {meetings : List Meeting}
    {mid : Nat} {meeting : Meeting} (h : getById meetings mid = some meeting)
    (hlt : ¬ now < meeting.end_time) (hs : meeting.status ≠ MeetingStatus.UPCOMING) :
    update_meeting_status now meetings mid = meetings := by
  simp [update_meeting_status, h, hlt, hs]

theorem update_meeting_status_fires {now : Instant} {meetings : List Meeting}
    {mid : Nat} {meeting : Meeting} (h : getById meetings mid = some meeting)
    (hlt : ¬ now < meeting.end_time) (hs : meeting.status = MeetingStatus.UPCOMING) :
    update_meeting_status now meetings mid =
      updateById meetings mid (fun m => { m with status := MeetingStatus.DONE }) := by
  simp [update_meeting_status, h, hlt, hs]

/-- C4.  Firing `update_meeting_status` sets the occurrence to `done` exactly
when the row exists, its end instant is not after the current time, and its
status is `upcoming`; in every other case (absent row, end still in the
future, status already `done`/`canceled`) the store is unchanged; and firing
twice in a row produces no additional state change the second time. -/
theorem claim_C4 (now : Instant) (meetings : List Meeting) (mid : Nat) :
    (getById meetings mid = none → update_meeting_status now meetings mid = meetings) ∧
    (∀ meeting, getById meetings mid = some meeting →
      (meeting.end_time ≤ now → meeting.status = MeetingStatus.UPCOMING →
        update_meeting_status now meetings mid =
          updateById meetings mid (fun m => { m with status := MeetingStatus.DONE }) ∧
        getById (update_meeting_status now meetings mid) mid =
          some { meeting with status := MeetingStatus.DONE }) ∧
      (now < meeting.end_time ∨ meeting.status ≠ MeetingStatus.UPCOMING →
        update_meeting_status now meetings mid = meetings)) ∧
    update_meeting_status now (update_meeting_status now meetings mid) mid =
      update_meeting_status now meetings mid := by
  have hf : ∀ m : Meeting, ({ m with status := MeetingStatus.DONE } : Meeting).id = m.id :=
    fun m => rfl
  refine ⟨update_meeting_status_of_none, ?_, ?_⟩
  · intro meeting hm
    constructor
    · intro hend hstatus
      have hlt : ¬ now < meeting.end_time := not_lt.mpr hend
      refine ⟨update_meeting_status_fires hm hlt hstatus, ?_⟩
      rw [update_meeting_status_fires hm hlt hstatus, getById_updateById_self hf, hm]
      rfl
    · intro hcase
      rcases hcase with hlt | hstat
      · exact update_meeting_status_of_future hm hlt
      · by_cases hlt : now < meeting.end_time
        · exact update_meeting_status_of_future hm hlt
        · exact update_meeting_status_of_not_upcoming hm hlt hstat
  · cases hm : getById meetings mid with
    | none => rw [update_meeting_status_of_none hm, update_meeting_status_of_none hm]
    | some meeting =>
      by_cases hlt : now < meeting.end_time
      · rw [update_meeting_status_of_future hm hlt,
          update_meeting_status_of_future hm hlt]
      · by_cases hstatus : meeting.status = MeetingStatus.UPCOMING
        · have hfire := update_meeting_status_fires hm hlt hstatus
          have hfind : getById (update_meeting_status now meetings mid) mid =
              some { meeting with status := MeetingStatus.DONE } := by
            rw [hfire, getById_updateById_self hf, hm]
            rfl
          exact update_meeting_status_of_not_upcoming hfind hlt (by simp)
        · rw [update_meeting_status_of_not_upcoming hm hlt hstatus,
            update_meeting_status_of_not_upcoming hm hlt hstatus]

/-- C4 witness: a past-ended upcoming meeting is flipped to `done` by the
firing path established in `claim_C4`. -/
theorem claim_C4_witness :
    update_meeting_status 1000
      [{ id := 1, service_id := 0, client_id := 0, title := none,
         recurrence_id := none, membership_id := none,
         start_time := 0, end_time := 500, price_per_hour := 10,
         price_total := 25, status := MeetingStatus.UPCOMING,
         paid := false }] 1 =
      [{ id := 1, service_id := 0, client_id := 0, title := none,
         recurrence_id := none, membership_id := none,
         start_time := 0, end_time := 500, price_per_hour := 10,
         price_total := 25, status := MeetingStatus.DONE,
         paid := false }] := by
  rw [((claim_C4 1000
      [{ id := 1, service_id := 0, client_id := 0, title := none,
         recurrence_id := none, membership_id := none,
         start_time := 0, end_time := 500, price_per_hour := 10,
         price_total := 25, status := MeetingStatus.UPCOMING,
         paid := false }] 1).2.1
    { id := 1, service_id := 0, client_id := 0, title := none,
      recurrence_id := none, membership_id := none,
      start_time := 0, end_time := 500, price_per_hour := 10,
      price_total := 25, status := MeetingStatus.UPCOMING,
      paid := false } (by decide)).1 (by decide) rfl |>.1]
  decide

/-! ### C9: the price-total invariant -/

/-- A one-hour meeting at 100/h whose stored total satisfies the invariant. -/
def c9Meeting : Meeting :=
  { id := 1, service_id := 0, client_id := 0, title := none,
    recurrence_id := none, membership_id := none,
    start_time := 0, end_time := 3600, price_per_hour := 100,
    price_total := 100, status := MeetingStatus.DONE, paid := false }

def c9State : SystemState :=
  { meetings := [c9Meeting], memberships := [], jobs := [], next_id := 2 }

/-- An update request changing only the hourly rate, to 50. -/
def c9Upd50 : MeetingUpdateRequest := { price_per_hour := some 50 }

/-- The rate the recomputation multiplies by agrees with the rate stored on the
row whenever the requested rate is not exactly `some 0`. -/
theorem effectiveRateForTotal_eq_getD {upd : MeetingUpdateRequest} {current : Meeting}
    (hrate : upd.price_per_hour ≠ some 0) :
    effectiveRateForTotal upd current = upd.price_per_hour.getD current.price_per_hour := by
  cases hr : upd.price_per_hour with
  | none => simp [effectiveRateForTotal, hr]
  | some r =>
      have hr0 : r ≠ 0 := by
        intro h0
        exact hrate (by rw [hr, h0])
      simp [effectiveRateForTotal, hr, hr0]

/-- C9.  After any successful create, and after any successful
single-occurrence update whose request carries a start instant, an end instant
or an hourly rate — with the proviso that a requested rate of exactly 0 is
excluded, see `claim_C9_counterexample` — the stored total equals the duration
in hours times the stored hourly rate. -/
theorem claim_C9 :
    (∀ (st : SystemState) (inst : MeetingCreateRequest) (st' : SystemState) (row : Meeting),
      create_meeting st inst = Except.ok (st', row) →
      row.price_total =
        ((row.end_time - row.start_time : Int) : ℚ) / 3600 * row.price_per_hour) ∧
    (∀ (st : SystemState) (mid : Nat) (upd : MeetingUpdateRequest)
        (st' : SystemState) (row : Meeting),
      updateSingleMeeting st mid upd = Except.ok (st', row) →
      (upd.start_time.isSome ∨ upd.end_time.isSome ∨ upd.price_per_hour.isSome) →
      upd.price_per_hour ≠ some 0 →
      row.price_total =
        ((row.end_time - row.start_time : Int) : ℚ) / 3600 * row.price_per_hour) := by
  constructor
  · intro st inst st' row h
    simp only [create_meeting] at h
    split at h
    · rw [Except.ok.injEq, Prod.mk.injEq] at h
      obtain ⟨-, h2⟩ := h
      subst h2
      simp [mkMeetingRow]
    · exact absurd h (by simp)
  · intro st mid upd st' row h htime hrate
    cases hcur : getById st.meetings mid with
    | none =>
        simp only [updateSingleMeeting, hcur] at h
        exact absurd h (by simp)
    | some current =>
        simp only [updateSingleMeeting, hcur] at h
        rw [Except.ok.injEq, Prod.mk.injEq] at h
        obtain ⟨-, h2⟩ := h
        subst h2
        simp only [applyUpdateFields]
        rw [if_pos htime, effectiveRateForTotal_eq_getD hrate]

/-- C9 counterexample: on a one-hour meeting at rate 100 (total 100), an
update request setting the hourly rate to exactly 0 stores rate 0 but leaves
the total at 100 (Python `or` treats `0.0` as falsy in the recomputation), so
`total = duration × rate` fails after the operation. -/
theorem claim_C9_counterexample :
    ∃ (st' : SystemState) (row : Meeting),
      updateSingleMeeting c9State 1 { price_per_hour := some 0 } =
        Except.ok (st', row) ∧
      row.price_per_hour = 0 ∧
      row.end_time - row.start_time = 3600 ∧
      row.price_total ≠
        ((row.end_time - row.start_time : Int) : ℚ) / 3600 * row.price_per_hour := by
  refine ⟨_, _, rfl, rfl, by decide, ?_⟩
  intro hcontra
  simp only [applyUpdateFields, effectiveRateForTotal, c9Meeting] at hcontra
  norm_num at hcontra

/-- C9 witness: updating the rate of the one-hour meeting from 100 to 50
re-establishes the invariant, by `claim_C9`. -/
theorem claim_C9_witness :
    (applyUpdateFields c9Upd50 c9Meeting).price_total =
      (((applyUpdateFields c9Upd50 c9Meeting).end_time -
        (applyUpdateFields c9Upd50 c9Meeting).start_time : Int) : ℚ) / 3600 *
        (applyUpdateFields c9Upd50 c9Meeting).price_per_hour :=
  claim_C9.2 c9State 1 c9Upd50 _ _ rfl (by decide) (by decide)

/-! ### C5: startup recovery -/

theorem recoveryStep_skip {now : Instant} {js : List (Nat × Instant)}
    {s : RecoverySummary} {m : Meeting} (h : m.end_time ≤ now) :
    recoveryStep now (js, s) m =
      (js, { s with meetings_skipped := s.meetings_skipped + 1 }) := by
  simp [recoveryStep, h]

theorem recoveryStep_already {now : Instant} {js : List (Nat × Instant)}
    {s : RecoverySummary} {m : Meeting} (h : ¬ m.end_time ≤ now)
    (hj : hasJob js m.id = true) :
    recoveryStep now (js, s) m =
      (js, { s with jobs_already_exist := s.jobs_already_exist + 1 }) := by
  simp [recoveryStep, h, hj]

theorem recoveryStep_arm {now : Instant} {js : List (Nat × Instant)}
    {s : RecoverySummary} {m : Meeting} (h : ¬ m.end_time ≤ now)
    (hj : hasJob js m.id = false) :
    recoveryStep now (js, s) m =
      (scheduleMeetingStatusUpdate js m.id m.end_time,
       { s with jobs_scheduled := s.jobs_scheduled + 1 }) := by
  simp [recoveryStep, h, hj]

theorem hasJob_schedule_ne {js : List (Nat × Instant)} {aid mid : Nat} {rd : Instant}
    (hne : aid ≠ mid) (h : hasJob js mid = false) :
    hasJob (scheduleMeetingStatusUpdate js aid rd) mid = false := by
  simp only [hasJob, List.any_eq_false] at h ⊢
  intro j hj
  rcases List.mem_append.mp hj with hjl | hjr
  · exact h j (List.mem_of_mem_filter hjl)
  · have : j = (aid, rd) := by simpa using hjr
    subst this
    simp [hne]

theorem mem_schedule_self {js : List (Nat × Instant)} {aid : Nat} {rd : Instant} :
    (aid, rd) ∈ scheduleMeetingStatusUpdate js aid rd := by
  simp [scheduleMeetingStatusUpdate]

theorem mem_schedule_of_ne {js : List (Nat × Instant)} {p : Nat × Instant}
    {aid : Nat} {rd : Instant} (hne : p.1 ≠ aid) (h : p ∈ js) :
    p ∈ scheduleMeetingStatusUpdate js aid rd := by
  refine List.mem_append.mpr (Or.inl ?_)
  refine List.mem_filter.mpr ⟨h, ?_⟩
  simpa using hne

/-- A job whose id does not occur in the remaining meeting list survives the
recovery fold. -/
theorem recovery_fold_pres (now : Instant) :
    ∀ (l : List Meeting) (js : List (Nat × Instant)) (s : RecoverySummary)
      (p : Nat × Instant), p ∈ js → (∀ n ∈ l, n.id ≠ p.1) →
      p ∈ (l.foldl (recoveryStep now) (js, s)).1 := by
  intro l
  induction l with
  | nil => intro js s p hp _; simpa using hp
  | cons a t ih =>
      intro js s p hp hids
      rw [List.foldl_cons]
      have ha : a.id ≠ p.1 := hids a (List.mem_cons_self a t)
      have hrest : ∀ n ∈ t, n.id ≠ p.1 := fun n hn => hids n (List.mem_cons_of_mem a hn)
      by_cases hend : a.end_time ≤ now
      · rw [recoveryStep_skip hend]
        exact ih js _ p hp hrest
      · cases hj : hasJob js a.id with
        | true =>
            rw [recoveryStep_already hend hj]
            exact ih js _ p hp hrest
        | false =>
            rw [recoveryStep_arm hend hj]
            exact ih _ _ p (mem_schedule_of_ne (Ne.symm ha) hp) hrest

/-- A future-ended meeting in the list with no live job gets armed at its end
instant, provided the ids in the list are distinct. -/
theorem recovery_fold_arm (now : Instant) :
    ∀ (l : List Meeting) (js : List (Nat × Instant)) (s : RecoverySummary)
      (m : Meeting), m ∈ l → (l.map Meeting.id).Nodup → ¬ m.end_time ≤ now →
      hasJob js m.id = false →
      (m.id, m.end_time) ∈ (l.foldl (recoveryStep now) (js, s)).1 := by
  intro l
  induction l with
  | nil => intro js s m hm; cases hm
  | cons a t ih =>
      intro js s m hm hnodup hend hj
      have hn' : a.id ∉ t.map Meeting.id ∧ (t.map Meeting.id).Nodup := by
        rw [List.map_cons, List.nodup_cons] at hnodup
        exact hnodup
      rw [List.foldl_cons]
      rcases List.mem_cons.mp hm with heq | hmt
      · subst heq
        rw [recoveryStep_arm hend hj]
        apply recovery_fold_pres
        · exact mem_schedule_self
        · intro n hn hcontra
          have hc : n.id = m.id := hcontra
          exact hn'.1 (hc ▸ List.mem_map_of_mem Meeting.id hn)
      · have hane : a.id ≠ m.id := by
          intro h
          exact hn'.1 (h ▸ List.mem_map_of_mem Meeting.id hmt)
        by_cases henda : a.end_time ≤ now
        · rw [recoveryStep_skip henda]
          exact ih js _ m hmt hn'.2 hend hj
        · cases hja : hasJob js a.id with
          | true =>
              rw [recoveryStep_already henda hja]
              exact ih js _ m hmt hn'.2 hend hj
          | false =>
              rw [recoveryStep_arm henda hja]
              exact ih _ _ m hmt hn'.2 hend (hasJob_schedule_ne hane hj)

/-- An id with no live job, all of whose occurrences in the list have already
ended, is never armed by the recovery fold. -/
theorem recovery_fold_noarm (now : Instant) :
    ∀ (l : List Meeting) (js : List (Nat × Instant)) (s : RecoverySummary) (mid : Nat),
      hasJob js mid = false → (∀ n ∈ l, n.id = mid → n.end_time ≤ now) →
      hasJob (l.foldl (recoveryStep now) (js, s)).1 mid = false := by
  intro l
  induction l with
  | nil => intro js s mid hj _; simpa using hj
  | cons a t ih =>
      intro js s mid hj hpast
      have hrest : ∀ n ∈ t, n.id = mid → n.end_time ≤ now :=
        fun n hn => hpast n (List.mem_cons_of_mem a hn)
      rw [List.foldl_cons]
      by_cases hend : a.end_time ≤ now
      · rw [recoveryStep_skip hend]
        exact ih js _ mid hj hrest
      · cases hja : hasJob js a.id with
        | true =>
            rw [recoveryStep_already hend hja]
            exact ih js _ mid hj hrest
        | false =>
            rw [recoveryStep_arm hend hja]
            have hane : a.id ≠ mid := by
              intro h
              exact hend (hpast a (List.mem_cons_self a t) h)
            exact ih _ _ mid (hasJob_schedule_ne hane hj) hrest

/-- The skip counter counts exactly the already-ended meetings in the list. -/
theorem recovery_fold_skipcount (now : Instant) :
    ∀ (l : List Meeting) (js : List (Nat × Instant)) (s : RecoverySummary),
      (l.foldl (recoveryStep now) (js, s)).2.meetings_skipped =
        s.meetings_skipped + (l.filter (fun m => decide (m.end_time ≤ now))).length := by
  intro l
  induction l with
  | nil => intro js s; simp
  | cons a t ih =>
      intro js s
      rw [List.foldl_cons]
      by_cases hend : a.end_time ≤ now
      · rw [recoveryStep_skip hend, ih]
        simp [List.filter_cons, hend]
        omega
      · have hfilter :
            (a :: t).filter (fun m => decide (m.end_time ≤ now)) =
              t.filter (fun m => decide (m.end_time ≤ now)) := by
          simp [List.filter_cons, hend]
        rw [hfilter]
        cases hja : hasJob js a.id with
        | true => rw [recoveryStep_already hend hja, ih]
        | false => rw [recoveryStep_arm hend hja, ih]

/-- A past-ended upcoming meeting, used to exercise the skip branch. -/
def c5PastMeeting : Meeting :=
  { id := 1, service_id := 0, client_id := 0, title := none,
    recurrence_id := none, membership_id := none,
    start_time := 0, end_time := 100, price_per_hour := 10,
    price_total := 5, status := MeetingStatus.UPCOMING, paid := false }

/-- A still-future upcoming meeting, used to exercise the arming branch. -/
def c5FutureMeeting : Meeting :=
  { id := 1, service_id := 0, client_id := 0, title := none,
    recurrence_id := none, membership_id := none,
    start_time := 1500, end_time := 2000, price_per_hour := 10,
    price_total := 5, status := MeetingStatus.UPCOMING, paid := false }

/-- C5.  What startup recovery actually does, for stores with distinct ids:
an upcoming meeting whose end is still in the future and that has no live job
is armed at its end instant; an upcoming meeting whose end has already passed
and that has no live job still has no job afterwards — it is only counted in
`meetings_skipped` (the pass writes no meeting row, so nothing resolves it to
`done`); and `meetings_skipped` counts exactly the already-ended upcoming
meetings. -/
theorem claim_C5 (now : Instant) (meetings : List Meeting) (jobs : List (Nat × Instant))
    (hnodup : (meetings.map Meeting.id).Nodup) :
    (∀ m ∈ meetings, m.status = MeetingStatus.UPCOMING → ¬ m.end_time ≤ now →
      hasJob jobs m.id = false →
      (m.id, m.end_time) ∈ (ensureScheduledJobsForExistingMeetings now meetings jobs).1) ∧
    (∀ m ∈ meetings, m.status = MeetingStatus.UPCOMING → m.end_time ≤ now →
      hasJob jobs m.id = false →
      hasJob (ensureScheduledJobsForExistingMeetings now meetings jobs).1 m.id = false) ∧
    (ensureScheduledJobsForExistingMeetings now meetings jobs).2.meetings_skipped =
      ((meetings.filter (fun m => m.status == MeetingStatus.UPCOMING)).filter
        (fun m => decide (m.end_time ≤ now))).length := by
  have hupnodup :
      ((meetings.filter (fun m => m.status == MeetingStatus.UPCOMING)).map
        Meeting.id).Nodup :=
    List.Nodup.sublist ((List.filter_sublist meetings).map Meeting.id) hnodup
  refine ⟨?_, ?_, ?_⟩
  · intro m hm hst hend hj
    have hmem : m ∈ meetings.filter (fun m => m.status == MeetingStatus.UPCOMING) :=
      List.mem_filter.mpr ⟨hm, by simp [hst]⟩
    simp only [ensureScheduledJobsForExistingMeetings]
    exact recovery_fold_arm now _ jobs _ m hmem hupnodup hend hj
  · intro m hm hst hend hj
    have hmem : m ∈ meetings.filter (fun m => m.status == MeetingStatus.UPCOMING) :=
      List.mem_filter.mpr ⟨hm, by simp [hst]⟩
    have hpast : ∀ n ∈ meetings.filter (fun m => m.status == MeetingStatus.UPCOMING),
        n.id = m.id → n.end_time ≤ now := by
      intro n hn hid
      have hnm : n = m := List.inj_on_of_nodup_map hupnodup hn hmem hid
      rw [hnm]
      exact hend
    simp only [ensureScheduledJobsForExistingMeetings]
    exact recovery_fold_noarm now _ jobs _ m.id hj hpast
  · simp only [ensureScheduledJobsForExistingMeetings]
    rw [recovery_fold_skipcount]
    simp

/-- C5 counterexample: recovery over a single upcoming meeting whose end has
already passed leaves the job store empty and only counts the meeting as
skipped — the meeting is neither armed nor resolved to `done` (the pass writes
no meeting row at all), contradicting the claimed immediate resolution via the
firing path. -/
theorem claim_C5_counterexample :
    c5PastMeeting.status = MeetingStatus.UPCOMING ∧
    c5PastMeeting.end_time ≤ 1000 ∧
    ensureScheduledJobsForExistingMeetings 1000 [c5PastMeeting] [] =
      ([], ⟨1, 0, 0, 1⟩) := by
  decide

/-- C5 witness: a still-future upcoming meeting with no live job is armed at
its end instant, by `claim_C5`. -/
theorem claim_C5_witness :
    ((1 : Nat), (2000 : Instant)) ∈
      (ensureScheduledJobsForExistingMeetings 1000 [c5FutureMeeting] []).1 :=
  (claim_C5 1000 [c5FutureMeeting] [] (by decide)).1 c5FutureMeeting (by decide)
    rfl (by decide) (by decide)

/-! ### C10: the this_and_future sibling query filters on status upcoming -/

def c10Rec : Recurrence :=
  { id := 5, service_id := 0, client_id := 0, frequency := RecurrenceFrequency.WEEKLY,
    start_date := ⟨⟨2024, 3, 1⟩, 36000⟩, end_date := ⟨⟨2024, 3, 22⟩, 36000⟩,
    title := "rec", start_time := 36000, end_time := 39600,
    price_per_hour := 100, use_membership := false }

def c10Target : Meeting :=
  { id := 1, service_id := 0, client_id := 0, title := none,
    recurrence_id := some 5, membership_id := none,
    start_time := 36000, end_time := 39600, price_per_hour := 100,
    price_total := 100, status := MeetingStatus.UPCOMING, paid := false }

/-- An upcoming sibling 30 seconds after the canonical time. -/
def c10Sibling : Meeting :=
  { id := 2, service_id := 0, client_id := 0, title := none,
    recurrence_id := some 5, membership_id := none,
    start_time := 36030, end_time := 39630, price_per_hour := 100,
    price_total := 100, status := MeetingStatus.UPCOMING, paid := false }

/-- A done sibling that matches the pattern times and lies after the target. -/
def c10DoneSibling : Meeting :=
  { id := 3, service_id := 0, client_id := 0, title := none,
    recurrence_id := some 5, membership_id := none,
    start_time := 36040, end_time := 39640, price_per_hour := 100,
    price_total := 100, status := MeetingStatus.DONE, paid := false }

def c10Meetings : List Meeting := [c10Target, c10Sibling, c10DoneSibling]

def c10Upd : MeetingUpdateRequest :=
  { start_time := some 39600, update_scope := some ("this_and_future") }

/-- The pair list the scoped update issues on the C10 fixture. -/
def c10Pairs : List (Nat × MeetingUpdateRequest) :=
  match meetingServiceUpdateRecurringMeeting c10Meetings (some c10Rec) c10Target c10Upd with
  | Except.ok l => l
  | Except.error _ => []

/-- C10.  With scope `this_and_future`, every issued update targets either the
selected meeting itself or a sibling that is `upcoming` and starts strictly
after it; consequently (with distinct ids) a `done` or `canceled` sibling is
never modified, however well it matches the pattern times. -/
theorem claim_C10 (meetings : List Meeting) (rec : Recurrence) (meeting : Meeting)
    (upd : MeetingUpdateRequest) (pairs : List (Nat × MeetingUpdateRequest))
    (hnodup : (meetings.map Meeting.id).Nodup)
    (hscope : upd.update_scope = some ("this_and_future"))
    (hok : meetingServiceUpdateRecurringMeeting meetings (some rec) meeting upd =
      Except.ok pairs) :
    (∀ p ∈ pairs, p.1 = meeting.id ∨
      ∃ m ∈ meetings, m.id = p.1 ∧ m.status = MeetingStatus.UPCOMING ∧
        meeting.start_time < m.start_time) ∧
    (∀ m ∈ meetings, m.id ≠ meeting.id → m.status ≠ MeetingStatus.UPCOMING →
      ∀ p ∈ pairs, p.1 ≠ m.id) := by
  have hmain : ∀ p ∈ pairs, p.1 = meeting.id ∨
      ∃ m ∈ meetings, m.id = p.1 ∧ m.status = MeetingStatus.UPCOMING ∧
        meeting.start_time < m.start_time := by
    simp only [meetingServiceUpdateRecurringMeeting, hscope] at hok
    rw [if_neg (by decide), if_neg (by decide), if_pos (by decide)] at hok
    rw [Except.ok.injEq] at hok
    subst hok
    intro p hp
    rcases List.mem_cons.mp hp with heq | hmap
    · left
      rw [heq]
    · right
      obtain ⟨m, hmf, hpe⟩ := List.mem_map.mp hmap
      obtain ⟨hmem1, hc2⟩ := List.mem_filter.mp hmf
      obtain ⟨hmem, hc1⟩ := List.mem_filter.mp hmem1
      have hc1' := (Bool.and_eq_true _ _).mp hc1
      have hstatus : m.status = MeetingStatus.UPCOMING := by
        have := hc1'.2
        simpa using this
      have hc2' := of_decide_eq_true hc2
      exact ⟨m, hmem, by rw [← hpe], hstatus, hc2'.1⟩
  refine ⟨hmain, ?_⟩
  intro m hm hne hnst p hp hpe
  rcases hmain p hp with h1 | ⟨m', hm', hid', hst', _⟩
  · exact hne (by rw [← hpe, h1])
  · have : m' = m :=
      List.inj_on_of_nodup_map hnodup hm' hm (by rw [hid', hpe])
    exact hnst (by rw [← this]; exact hst')

/-- C10 witness: on a store holding the target, an upcoming sibling and a
`done` sibling that also matches the pattern times, the issued pairs touch only
the target and the upcoming sibling, by `claim_C10`. -/
theorem claim_C10_witness :
    (∀ p ∈ c10Pairs, p.1 = c10Target.id ∨
      ∃ m ∈ c10Meetings, m.id = p.1 ∧ m.status = MeetingStatus.UPCOMING ∧
        c10Target.start_time < m.start_time) ∧
    (∀ m ∈ c10Meetings, m.id ≠ c10Target.id → m.status ≠ MeetingStatus.UPCOMING →
      ∀ p ∈ c10Pairs, p.1 ≠ m.id) :=
  claim_C10 c10Meetings c10Rec c10Target c10Upd c10Pairs (by decide) rfl rfl

/-! ### C8: unknown scope values -/

def c8Meeting : Meeting :=
  { id := 1, service_id := 0, client_id := 0, title := none,
    recurrence_id := some 5, membership_id := none,
    start_time := 36000, end_time := 39600, price_per_hour := 100,
    price_total := 100, status := MeetingStatus.UPCOMING, paid := false }

/-- C8.  For a scope value outside the closed enumeration: the two
`MeetingService` entry points raise `invalid scope` before any write whenever
the value is truthy (the update validation is guarded by Python truthiness, so
the out-of-enum value `""` silently falls through to the default single-meeting
update); `RecurrenceService.update_recurring_meeting` delegates the unknown
truthy scope to `MeetingService.update_meeting`, so the same error surfaces
through it; but `RecurrenceService.delete_recurring_meeting` never validates —
it silently deletes only the target and reports success. -/
theorem claim_C8 (s : String)
    (hs : (["this_meeting_only", "this_and_future", "all_meetings"] :
      List String).contains s = false) :
    (∀ (meetings : List Meeting) (rec : Option Recurrence) (meeting : Meeting)
        (upd : MeetingUpdateRequest), upd.update_scope = some s → s ≠ "" →
      meetingServiceUpdateRecurringMeeting meetings rec meeting upd =
        Except.error (ServiceError.invalidUpdateScope s)) ∧
    (∀ (meetings : List Meeting) (rec : Option Recurrence) (meeting : Meeting)
        (upd : MeetingUpdateRequest), upd.update_scope = some ("") →
      meetingServiceUpdateRecurringMeeting meetings rec meeting upd =
        Except.ok [(meeting.id, upd)]) ∧
    (∀ (meetings : List Meeting) (meeting : Meeting),
      meetingServiceDeleteRecurringMeeting meetings meeting s =
        Except.error (ServiceError.invalidDeleteScope s)) ∧
    (∀ (meetings : List Meeting) (rec : Option Recurrence) (meeting_id : Nat)
        (meeting : Meeting) (upd : MeetingUpdateRequest),
      getById meetings meeting_id = some meeting →
      meeting.recurrence_id.isSome = true →
      upd.update_scope = some s → s ≠ "" →
      recurrenceServiceUpdateRecurringMeeting meetings rec meeting_id upd =
        Except.error (ServiceError.invalidUpdateScope s)) ∧
    (∀ (meetings : List Meeting) (meeting_id : Nat) (meeting : Meeting),
      getById meetings meeting_id = some meeting →
      recurrenceServiceDeleteRecurringMeeting meetings meeting_id s =
        Except.ok [meeting_id]) := by
  have hne : ¬ s = "this_meeting_only" ∧ ¬ s = "this_and_future" ∧
      ¬ s = "all_meetings" := by
    simpa [List.contains, List.elem_cons] using hs
  have hA : ∀ (meetings : List Meeting) (rec : Option Recurrence) (meeting : Meeting)
      (upd : MeetingUpdateRequest), upd.update_scope = some s → s ≠ "" →
      meetingServiceUpdateRecurringMeeting meetings rec meeting upd =
        Except.error (ServiceError.invalidUpdateScope s) := by
    intro meetings rec meeting upd hscope hempty
    have hsne : (s == "") = false := beq_eq_false_iff_ne.mpr hempty
    simp [meetingServiceUpdateRecurringMeeting, hscope, hs, hsne, hempty,
      hne.1, hne.2.1, hne.2.2]
  refine ⟨hA, ?_, ?_, ?_, ?_⟩
  · intro meetings rec meeting upd hscope
    simp only [meetingServiceUpdateRecurringMeeting, hscope]
    rw [if_neg (by decide), if_neg (by decide), if_neg (by decide),
      if_neg (by decide)]
  · intro meetings meeting
    simp [meetingServiceDeleteRecurringMeeting, hs, hne.1, hne.2.1, hne.2.2]
  · intro meetings rec meeting_id meeting upd hget hrec hscope hempty
    have hisnone : meeting.recurrence_id.isNone = false := by
      cases hh : meeting.recurrence_id with
      | none => rw [hh] at hrec; exact absurd hrec (by simp)
      | some v => simp [hh]
    have hstep : recurrenceServiceUpdateRecurringMeeting meetings rec meeting_id upd =
        meetingServiceUpdateMeeting meetings rec meeting upd := by
      simp only [recurrenceServiceUpdateRecurringMeeting, hget, hisnone, hscope]
      rw [if_neg (by simp), if_neg (by simp [hne.1]), if_neg (by simp [hne.2.1]),
        if_neg (by simp [hne.2.2])]
    have hstep2 : meetingServiceUpdateMeeting meetings rec meeting upd =
        meetingServiceUpdateRecurringMeeting meetings rec meeting upd := by
      simp only [meetingServiceUpdateMeeting, scopeTruthy, hscope, hrec]
      rw [if_pos (by simp [hempty])]
    rw [hstep, hstep2]
    exact hA meetings rec meeting upd hscope hempty
  · intro meetings meeting_id meeting hget
    cases hrec : meeting.recurrence_id.isNone with
    | true =>
        simp [recurrenceServiceDeleteRecurringMeeting, hget, hrec]
    | false =>
        simp [recurrenceServiceDeleteRecurringMeeting, hget, hrec,
          hne.1, hne.2.1, hne.2.2]

/-- C8 counterexample: two silent fallbacks the claim rules out.  The
`RecurrenceService` delete entry point reports success for the unknown scope
`bogus`, deleting only the target; and the `MeetingService` update entry point
silently performs the default single-meeting update for the out-of-enum scope
`""`, because its validation is truthiness-guarded. -/
theorem claim_C8_counterexample :
    recurrenceServiceDeleteRecurringMeeting [c8Meeting] 1 ("bogus") =
      Except.ok [1] ∧
    (["this_meeting_only", "this_and_future", "all_meetings"] :
      List String).contains ("") = false ∧
    meetingServiceUpdateRecurringMeeting [c8Meeting] none c8Meeting
        { update_scope := some ("") } =
      Except.ok [(1, { update_scope := some ("") })] := by
  decide

/-- C8 witness: on the unknown truthy scope `bogus`, the `MeetingService`
delete entry point raises, the `RecurrenceService` update entry point raises
through its delegation to the meeting service, and the `RecurrenceService`
delete entry point silently succeeds, by `claim_C8`. -/
theorem claim_C8_witness :
    meetingServiceDeleteRecurringMeeting [c8Meeting] c8Meeting ("bogus") =
      Except.error (ServiceError.invalidDeleteScope ("bogus")) ∧
    recurrenceServiceUpdateRecurringMeeting [c8Meeting] none 1
        { update_scope := some ("bogus") } =
      Except.error (ServiceError.invalidUpdateScope ("bogus")) ∧
    recurrenceServiceDeleteRecurringMeeting [c8Meeting] 1 ("bogus") =
      Except.ok [1] :=
  ⟨(claim_C8 ("bogus") (by decide)).2.2.1 [c8Meeting] c8Meeting,
   (claim_C8 ("bogus") (by decide)).2.2.2.1 [c8Meeting] none 1 c8Meeting
     { update_scope := some ("bogus") } rfl rfl rfl (by decide),
   (claim_C8 ("bogus") (by decide)).2.2.2.2 [c8Meeting] 1 c8Meeting rfl⟩

/-! ### C2: scoped time offsets -/

theorem ite_some_none_eq {α : Type} {c : Prop} [Decidable c] {x p : α}
    (h : (if c then some x else none) = some p) : c ∧ p = x := by
  by_cases hc : c
  · rw [if_pos hc] at h
    exact ⟨hc, (Option.some.inj h).symm⟩
  · rw [if_neg hc] at h
    exact absurd h (by simp)

/-- Shifting an instant by an offset keeps it on the same calendar date
exactly as long as the shifted time-of-day stays inside `[0, 86400)`. -/
theorem dateOfInstant_add_inrange (t o : Int)
    (h0 : 0 ≤ t % 86400 + o) (h1 : t % 86400 + o < 86400) :
    dateOfInstant (t + o) = dateOfInstant t := by
  simp only [dateOfInstant]
  rw [Int.fdiv_eq_ediv _ (by norm_num), Int.fdiv_eq_ediv _ (by norm_num)]
  omega

/-- C2.  In the recurrence-service scoped engine, with a time edit present:
the offsets are computed once, from the canonical pattern times projected onto
the *target's* date; the target's issued request carries the new times
directly; every other issued sibling request shifts that sibling's own start
and end by exactly those offsets; and the shift preserves the sibling's
calendar date exactly when the shifted time-of-day stays within the day —
an offset that pushes a sibling across midnight moves it to another date
(see `claim_C2_counterexample`). -/
theorem claim_C2 (meetings : List Meeting) (rec : Recurrence) (orig : Meeting)
    (upd : MeetingUpdateRequest) (scope : String) (ps pe ns ne offS offE : Int)
    (hps : ps = combineInstant (dateOfInstant orig.start_time) (rec.start_time : Int))
    (hpe : pe = combineInstant (dateOfInstant orig.start_time) (rec.end_time : Int))
    (hns : ns = upd.start_time.getD ps) (hne : ne = upd.end_time.getD pe)
    (hoffS : offS = ns - ps) (hoffE : offE = ne - pe)
    (ht : upd.start_time.isSome ∨ upd.end_time.isSome) :
    ∀ p ∈ updateRecurringMeetingsWithScope meetings (some rec) orig upd scope,
      ∃ m ∈ meetings, p.1 = m.id ∧
        (m.id = orig.id →
          p.2.start_time = some ns ∧ p.2.end_time = some ne) ∧
        (m.id ≠ orig.id →
          p.2.start_time = some (m.start_time + offS) ∧
          p.2.end_time = some (m.end_time + offE) ∧
          (0 ≤ m.start_time % 86400 + offS ∧
              m.start_time % 86400 + offS < 86400 →
            dateOfInstant (m.start_time + offS) = dateOfInstant m.start_time)) := by
  subst hps hpe hns hne hoffS hoffE
  intro p hp
  simp only [updateRecurringMeetingsWithScope] at hp
  obtain ⟨m, hmem0, hf⟩ := List.mem_filterMap.mp hp
  have hmem1 : m ∈ List.insertionSort (fun a b => a.start_time ≤ b.start_time)
      (meetings.filter (fun m => m.recurrence_id == orig.recurrence_id)) := by
    by_cases hscope : (scope == "future") = true
    · rw [if_pos hscope] at hmem0
      exact (List.mem_filter.mp hmem0).1
    · rw [if_neg hscope] at hmem0
      exact hmem0
  have hmem : m ∈ meetings := by
    have hperm := List.perm_insertionSort
      (fun (a b : Meeting) => a.start_time ≤ b.start_time)
      (meetings.filter (fun m => m.recurrence_id == orig.recurrence_id))
    exact (List.mem_filter.mp (hperm.mem_iff.mp hmem1)).1
  refine ⟨m, hmem, ?_⟩
  obtain ⟨-, hpair⟩ := ite_some_none_eq hf
  subst hpair
  refine ⟨rfl, ?_, ?_⟩
  · intro hid
    have hb : (m.id == orig.id) = true := beq_iff_eq.mpr hid
    simp [scopedSiblingUpdate, hb]
  · intro hid
    have hb : (m.id == orig.id) = false := beq_eq_false_iff_ne.mpr hid
    refine ⟨by simp [scopedSiblingUpdate, hb], by simp [scopedSiblingUpdate, hb], ?_⟩
    intro hrange
    exact dateOfInstant_add_inrange _ _ hrange.1 hrange.2

def c2Rec : Recurrence :=
  { id := 5, service_id := 0, client_id := 0, frequency := RecurrenceFrequency.WEEKLY,
    start_date := ⟨⟨2024, 3, 1⟩, 36000⟩, end_date := ⟨⟨2024, 3, 22⟩, 36000⟩,
    title := "rec", start_time := 36000, end_time := 39600,
    price_per_hour := 100, use_membership := false }

def c2Orig : Meeting :=
  { id := 1, service_id := 0, client_id := 0, title := none,
    recurrence_id := some 5, membership_id := none,
    start_time := 36000, end_time := 39600, price_per_hour := 100,
    price_total := 100, status := MeetingStatus.UPCOMING, paid := false }

/-- A sibling one week later, exactly on the canonical pattern times. -/
def c2Sib : Meeting :=
  { id := 2, service_id := 0, client_id := 0, title := none,
    recurrence_id := some 5, membership_id := none,
    start_time := 640800, end_time := 644400, price_per_hour := 100,
    price_total := 100, status := MeetingStatus.UPCOMING, paid := false }

def c2Meetings : List Meeting := [c2Orig, c2Sib]

def c2Upd : MeetingUpdateRequest := { start_time := some 39600 }

/-- The pair the engine issues for the sibling on the C2 witness fixture. -/
def c2Pair : Nat × MeetingUpdateRequest :=
  (c2Sib.id, scopedSiblingUpdate c2Upd (c2Sib.id == c2Orig.id) 39600 39600 3600 0 c2Sib)

/-- C2 witness: moving the 10:00 target to 11:00 shifts the one-week-later
sibling by the same +1h offset and keeps it on its own date, by `claim_C2`. -/
theorem claim_C2_witness :
    ∃ m ∈ c2Meetings, c2Pair.1 = m.id ∧
      (m.id = c2Orig.id →
        c2Pair.2.start_time = some 39600 ∧ c2Pair.2.end_time = some 39600) ∧
      (m.id ≠ c2Orig.id →
        c2Pair.2.start_time = some (m.start_time + 3600) ∧
        c2Pair.2.end_time = some (m.end_time + 0) ∧
        (0 ≤ m.start_time % 86400 + 3600 ∧ m.start_time % 86400 + 3600 < 86400 →
          dateOfInstant (m.start_time + 3600) = dateOfInstant m.start_time)) :=
  claim_C2 c2Meetings c2Rec c2Orig c2Upd ("all") 36000 39600 39600 39600 3600 0
    (by decide) (by decide) (by decide) (by decide) (by decide) (by decide)
    (Or.inl (by decide)) c2Pair (by decide)

def c2xRec : Recurrence :=
  { id := 5, service_id := 0, client_id := 0, frequency := RecurrenceFrequency.WEEKLY,
    start_date := ⟨⟨2024, 3, 1⟩, 82800⟩, end_date := ⟨⟨2024, 3, 22⟩, 82800⟩,
    title := "rec", start_time := 82800, end_time := 84600,
    price_per_hour := 100, use_membership := false }

def c2xOrig : Meeting :=
  { id := 1, service_id := 0, client_id := 0, title := none,
    recurrence_id := some 5, membership_id := none,
    start_time := 82800, end_time := 84600, price_per_hour := 100,
    price_total := 50, status := MeetingStatus.UPCOMING, paid := false }

/-- A 23:00 sibling one week later, on the canonical pattern times. -/
def c2xSib : Meeting :=
  { id := 2, service_id := 0, client_id := 0, title := none,
    recurrence_id := some 5, membership_id := none,
    start_time := 687600, end_time := 689400, price_per_hour := 100,
    price_total := 50, status := MeetingStatus.UPCOMING, paid := false }

def c2xMeetings : List Meeting := [c2xOrig, c2xSib]

/-- Move the 23:00 target to 01:00 of the next day: offset +2h. -/
def c2xUpd : MeetingUpdateRequest := { start_time := some 90000 }

def c2xPair : Nat × MeetingUpdateRequest :=
  (c2xSib.id, scopedSiblingUpdate c2xUpd (c2xSib.id == c2xOrig.id) 90000 84600 7200 0 c2xSib)

/-- C2 counterexample: the +2h offset pushes the 23:00 sibling across
midnight — the issued start instant lies on the day after the sibling's
original calendar date, so the claimed unconditional date preservation is
false. -/
theorem claim_C2_counterexample :
    c2xPair ∈ updateRecurringMeetingsWithScope c2xMeetings (some c2xRec) c2xOrig
      c2xUpd ("all") ∧
    c2xPair.2.start_time = some 694800 ∧
    dateOfInstant 694800 ≠ dateOfInstant c2xSib.start_time := by
  decide

/-! ### C3: the 60-second drift filter -/

theorem if_neg_true {c : Prop} [Decidable c] {t : Prop} (hc : ¬ c) :
    if c then t else True := by
  rw [if_neg hc]
  trivial

/-- Rows whose id is never named by the issued updates are left unchanged by
folding the updates into the store. -/
theorem applyIssuedUpdates_frame :
    ∀ (issued : List (Nat × MeetingUpdateRequest)) (meetings : List Meeting)
      (mid : Nat), (∀ p ∈ issued, p.1 ≠ mid) →
      getById (applyIssuedUpdates meetings issued) mid = getById meetings mid := by
  intro issued
  induction issued with
  | nil => intro meetings mid _; rfl
  | cons q t ih =>
      intro meetings mid hq
      have hstep : applyIssuedUpdates meetings (q :: t) =
          applyIssuedUpdates (updateById meetings q.1 (applyUpdateFields q.2)) t := rfl
      rw [hstep, ih _ mid (fun p hp => hq p (List.mem_cons_of_mem q hp))]
      exact getById_updateById_ne (fun m => rfl)
        (fun h => hq q (List.mem_cons_self q t) h.symm)

/-- C3.  What the 60-second drift filter of the recurrence-service bulk engine
actually guards: when the edit carries a start or end time, every issued update
names a row within 60 seconds of the canonical pattern times projected onto
that row's own date, and rows never named stay exactly as they were; but when
the edit carries no time at all (e.g. a price-only edit), the filter is
skipped and every in-scope sibling — drifted or not — is issued an update. -/
theorem claim_C3 (meetings : List Meeting) (rec : Recurrence) (orig : Meeting)
    (upd : MeetingUpdateRequest) (scope : String) :
    ((upd.start_time.isSome ∨ upd.end_time.isSome) →
      ∀ p ∈ updateRecurringMeetingsWithScope meetings (some rec) orig upd scope,
        ∃ m ∈ meetings, p.1 = m.id ∧
          |m.start_time -
            combineInstant (dateOfInstant m.start_time) (rec.start_time : Int)| < 60 ∧
          |m.end_time -
            combineInstant (dateOfInstant m.start_time) (rec.end_time : Int)| < 60) ∧
    (∀ (issued : List (Nat × MeetingUpdateRequest)) (mid : Nat),
      (∀ p ∈ issued, p.1 ≠ mid) →
      getById (applyIssuedUpdates meetings issued) mid = getById meetings mid) ∧
    (¬ (upd.start_time.isSome ∨ upd.end_time.isSome) → (scope == "future") = false →
      ∀ m ∈ meetings, m.recurrence_id = orig.recurrence_id →
        ∃ p ∈ updateRecurringMeetingsWithScope meetings (some rec) orig upd scope,
          p.1 = m.id) := by
  refine ⟨?_, fun issued mid h => applyIssuedUpdates_frame issued meetings mid h, ?_⟩
  · intro ht p hp
    simp only [updateRecurringMeetingsWithScope] at hp
    obtain ⟨m, hmem0, hf⟩ := List.mem_filterMap.mp hp
    have hmem1 : m ∈ List.insertionSort (fun a b => a.start_time ≤ b.start_time)
        (meetings.filter (fun m => m.recurrence_id == orig.recurrence_id)) := by
      by_cases hscope : (scope == "future") = true
      · rw [if_pos hscope] at hmem0
        exact (List.mem_filter.mp hmem0).1
      · rw [if_neg hscope] at hmem0
        exact hmem0
    have hmem : m ∈ meetings := by
      have hperm := List.perm_insertionSort
        (fun (a b : Meeting) => a.start_time ≤ b.start_time)
        (meetings.filter (fun m => m.recurrence_id == orig.recurrence_id))
      exact (List.mem_filter.mp (hperm.mem_iff.mp hmem1)).1
    obtain ⟨hcond, hpair⟩ := ite_some_none_eq hf
    rw [if_pos ht] at hcond
    subst hpair
    exact ⟨m, hmem, rfl, hcond.1, hcond.2⟩
  · intro hnt hscope m hm hrec
    simp only [updateRecurringMeetingsWithScope]
    rw [if_neg (by simp [hscope])]
    have hmem2 : m ∈ List.insertionSort (fun a b => a.start_time ≤ b.start_time)
        (meetings.filter (fun x => x.recurrence_id == orig.recurrence_id)) :=
      (List.perm_insertionSort _ _).mem_iff.mpr
        (List.mem_filter.mpr ⟨hm, by simp [hrec]⟩)
    exact ⟨_, List.mem_filterMap.mpr ⟨m, hmem2, if_pos (if_neg_true hnt)⟩, rfl⟩

def c3Rec : Recurrence :=
  { id := 5, service_id := 0, client_id := 0, frequency := RecurrenceFrequency.WEEKLY,
    start_date := ⟨⟨2024, 3, 1⟩, 36000⟩, end_date := ⟨⟨2024, 3, 22⟩, 36000⟩,
    title := "rec", start_time := 36000, end_time := 39600,
    price_per_hour := 100, use_membership := false }

def c3Orig : Meeting :=
  { id := 1, service_id := 0, client_id := 0, title := none,
    recurrence_id := some 5, membership_id := none,
    start_time := 36000, end_time := 39600, price_per_hour := 100,
    price_total := 100, status := MeetingStatus.UPCOMING, paid := false }

/-- A sibling previously exception-edited two hours away from the canonical
times of its own date (canonical 640800/644400, actual 648000/651600). -/
def c3Drifted : Meeting :=
  { id := 2, service_id := 0, client_id := 0, title := none,
    recurrence_id := some 5, membership_id := none,
    start_time := 648000, end_time := 651600, price_per_hour := 100,
    price_total := 100, status := MeetingStatus.UPCOMING, paid := false }

def c3Meetings : List Meeting := [c3Orig, c3Drifted]

/-- A price-only edit: carries no start or end time. -/
def c3PriceUpd : MeetingUpdateRequest := { price_per_hour := some 50 }

def c3TimeUpd : MeetingUpdateRequest := { start_time := some 39600 }

/-- The pair issued for the target under the time edit. -/
def c3Pair : Nat × MeetingUpdateRequest :=
  (c3Orig.id, scopedSiblingUpdate c3TimeUpd (c3Orig.id == c3Orig.id) 39600 39600 3600 0 c3Orig)

/-- C3 counterexample: a price-only bulk edit carries no time, so the drift
filter is skipped entirely: the sibling that sits 7200 seconds away from its
own date's canonical times — far outside the 60-second tolerance — still gets
its hourly rate overwritten from 100 to 50, instead of being left completely
unchanged as claimed. -/
theorem claim_C3_counterexample :
    (¬ (c3PriceUpd.start_time.isSome ∨ c3PriceUpd.end_time.isSome)) ∧
    ¬ (|c3Drifted.start_time -
        combineInstant (dateOfInstant c3Drifted.start_time)
          (c3Rec.start_time : Int)| < 60) ∧
    (∃ row,
      getById (applyIssuedUpdates c3Meetings
        (updateRecurringMeetingsWithScope c3Meetings (some c3Rec) c3Orig
          c3PriceUpd ("all"))) 2 = some row ∧
      row.price_per_hour = 50 ∧ c3Drifted.price_per_hour = 100) := by
  refine ⟨by decide, by decide, ⟨_, rfl, rfl, rfl⟩⟩

/-- C3 witness: under a time edit the issued target pair names a row within
the tolerance on its own date, and a row never named by the issued updates is
read back unchanged, by `claim_C3`. -/
theorem claim_C3_witness :
    (∃ m ∈ c3Meetings, c3Pair.1 = m.id ∧
      |m.start_time -
        combineInstant (dateOfInstant m.start_time) (c3Rec.start_time : Int)| < 60 ∧
      |m.end_time -
        combineInstant (dateOfInstant m.start_time) (c3Rec.end_time : Int)| < 60) ∧
    getById (applyIssuedUpdates c3Meetings [(99, c3PriceUpd)]) 2 =
      getById c3Meetings 2 :=
  ⟨(claim_C3 c3Meetings c3Rec c3Orig c3TimeUpd ("all")).1
      (Or.inl (by decide)) c3Pair (by decide),
   (claim_C3 c3Meetings c3Rec c3Orig c3TimeUpd ("all")).2.1
      [(99, c3PriceUpd)] 2 (by decide)⟩

/-! ### C6: membership quota cap on recurrence creation -/

/-- Every draft an ok materializer run returns is `upcoming`. -/
theorem generateLoop_status (recurrence : Recurrence) (end_date : PyDateTime) :
    ∀ (fuel : Nat) (cur : PyDateTime) (l : List MeetingCreateRequest),
      generateLoop recurrence end_date fuel cur = Except.ok l →
      ∀ i ∈ l, i.status = MeetingStatus.UPCOMING := by
  intro fuel
  induction fuel with
  | zero =>
      intro cur l h i hi
      simp only [generateLoop] at h
      split at h
      · exact absurd h (by simp)
      · rw [Except.ok.injEq] at h
        subst h
        cases hi
  | succ n ih =>
      intro cur l h i hi
      simp only [generateLoop] at h
      split at h
      · split at h
        · exact absurd h (by simp)
        · rename_i next hnext
          split at h
          · exact absurd h (by simp)
          · rename_i rest hrest
            rw [Except.ok.injEq] at h
            subst h
            rcases List.mem_cons.mp hi with he | hm
            · rw [he]
              rfl
            · exact ih next rest hrest i hm
      · rw [Except.ok.injEq] at h
        subst h
        cases hi

theorem generate_meeting_instances_status {recurrence : Recurrence}
    {start_date end_date : PyDateTime} {l : List MeetingCreateRequest}
    (h : generate_meeting_instances recurrence start_date end_date = Except.ok l) :
    ∀ i ∈ l, i.status = MeetingStatus.UPCOMING :=
  generateLoop_status recurrence end_date _ start_date l h

/-- With distinct membership ids, the id lookup finds the record itself. -/
theorem find_by_id_of_nodup :
    ∀ (memberships : List MembershipRecord) (mb : MembershipRecord),
      mb ∈ memberships → (memberships.map MembershipRecord.id).Nodup →
      memberships.find? (fun r => r.id == mb.id) = some mb := by
  intro l
  induction l with
  | nil => intro mb hm _; cases hm
  | cons a t ih =>
      intro mb hm hnodup
      rw [List.map_cons, List.nodup_cons] at hnodup
      rcases List.mem_cons.mp hm with he | hmt
      · subst he
        rw [List.find?_cons_of_pos _ (by simp)]
      · have hne : (a.id == mb.id) = false := by
          simp only [beq_eq_false_iff_ne]
          intro h
          exact hnodup.1 (h ▸ List.mem_map_of_mem MembershipRecord.id hmt)
        rw [List.find?_cons_of_neg _ (by simp [hne])]
        exact ih mb hmt hnodup.2

/-- Appending one upcoming stamped row burns exactly one credit. -/
theorem availableMeetings_append_upcoming (ms : List Meeting) (mb : MembershipRecord)
    (row : Meeting) (hmid : row.membership_id = some mb.id)
    (hst : row.status = MeetingStatus.UPCOMING) :
    availableMeetings (ms ++ [row]) mb = availableMeetings ms mb - 1 := by
  have hdone : (row.membership_id == some mb.id &&
      row.status == MeetingStatus.DONE) = false := by
    rw [hst, show (MeetingStatus.UPCOMING == MeetingStatus.DONE) = false from rfl,
      Bool.and_false]
  have hupc : (row.membership_id == some mb.id &&
      row.status == MeetingStatus.UPCOMING) = true := by
    rw [hmid, hst,
      show (MeetingStatus.UPCOMING == MeetingStatus.UPCOMING) = true from rfl,
      Bool.and_true, beq_self_eq_true]
  simp only [availableMeetings, doneMeetingsCount, scheduledMeetingsCount,
    List.filter_append, List.length_append, List.filter_cons, List.filter_nil,
    hdone, hupc]
  simp
  push_cast
  omega

/-- When the whole list lies below the cap, the stamping loop stamps every
instance. -/
theorem stampInstances_all (mb : MembershipRecord) (available : Int) :
    ∀ (l : List MeetingCreateRequest) (i : Nat),
      (i : Int) + l.length ≤ available →
      stampInstances mb available i l =
        l.map (fun inst =>
          { inst with
              price_per_hour := mb.price_per_meeting
              membership_id := some mb.id }) := by
  intro l
  induction l with
  | nil => intro i _; rfl
  | cons a t ih =>
      intro i hle
      simp only [List.length_cons] at hle
      push_cast at hle
      have hi : (i : Int) < available := by omega
      simp only [stampInstances, List.map_cons]
      rw [if_pos hi, ih (i + 1) (by push_cast; omega)]

/-- One successful `create_meeting` call on a stamped instance. -/
theorem create_meeting_ok (st : SystemState) (inst : MeetingCreateRequest)
    (mb : MembershipRecord) (hmid : inst.membership_id = some mb.id)
    (hfind : st.memberships.find? (fun r => r.id == mb.id) = some mb)
    (h1 : 1 ≤ availableMeetings st.meetings mb) :
    create_meeting st inst = Except.ok
      ({ meetings := st.meetings ++ [mkMeetingRow st.next_id inst],
         memberships := st.memberships,
         jobs := if (mkMeetingRow st.next_id inst).status = MeetingStatus.UPCOMING
           then scheduleMeetingStatusUpdate st.jobs (mkMeetingRow st.next_id inst).id
             (mkMeetingRow st.next_id inst).end_time
           else st.jobs,
         next_id := st.next_id + 1 }, mkMeetingRow st.next_id inst) := by
  simp only [create_meeting, hmid, checkMembershipAvailability, hfind]
  rw [if_pos (decide_eq_true h1)]

/-- Sequentially creating a list of instances all stamped onto the same
membership succeeds whenever the list fits into the available credits: each
created upcoming row burns one credit, so every per-call availability check
passes. -/
theorem createSeq_stamped (mb : MembershipRecord) :
    ∀ (insts : List MeetingCreateRequest) (st : SystemState),
      st.memberships.find? (fun r => r.id == mb.id) = some mb →
      (∀ i ∈ insts, i.membership_id = some mb.id ∧
        i.price_per_hour = mb.price_per_meeting ∧
        i.status = MeetingStatus.UPCOMING) →
      (insts.length : Int) ≤ availableMeetings st.meetings mb →
      ∃ st2 rows, createMeetingsSequentially st insts = Except.ok (st2, rows) ∧
        rows.length = insts.length ∧
        st2.memberships = st.memberships ∧
        (∀ r ∈ rows, r.membership_id = some mb.id ∧
          r.price_per_hour = mb.price_per_meeting) ∧
        rows.map Meeting.start_time = insts.map (fun i => toInstant i.start_time) := by
  intro insts
  induction insts with
  | nil =>
      intro st hfind hstamp hlen
      exact ⟨st, [], rfl, rfl, rfl, by simp, rfl⟩
  | cons i t ih =>
      intro st hfind hstamp hlen
      obtain ⟨hmid, hprice, hstatus⟩ := hstamp i (List.mem_cons_self i t)
      simp only [List.length_cons] at hlen
      push_cast at hlen
      have h1 : 1 ≤ availableMeetings st.meetings mb := by omega
      have hcreate := create_meeting_ok st i mb hmid hfind h1
      have hrowmid : (mkMeetingRow st.next_id i).membership_id = some mb.id := by
        simp [mkMeetingRow, hmid]
      have hrowst : (mkMeetingRow st.next_id i).status = MeetingStatus.UPCOMING := by
        simp [mkMeetingRow, hstatus]
      have havail1 : availableMeetings (st.meetings ++ [mkMeetingRow st.next_id i]) mb =
          availableMeetings st.meetings mb - 1 :=
        availableMeetings_append_upcoming _ _ _ hrowmid hrowst
      obtain ⟨st2, rows, hseq, hlenr, hmemb, hprops, hmap⟩ :=
        ih { meetings := st.meetings ++ [mkMeetingRow st.next_id i],
             memberships := st.memberships,
             jobs := if (mkMeetingRow st.next_id i).status = MeetingStatus.UPCOMING
               then scheduleMeetingStatusUpdate st.jobs (mkMeetingRow st.next_id i).id
                 (mkMeetingRow st.next_id i).end_time
               else st.jobs,
             next_id := st.next_id + 1 }
          hfind
          (fun j hj => hstamp j (List.mem_cons_of_mem i hj))
          (by
            show (t.length : Int) ≤
              availableMeetings (st.meetings ++ [mkMeetingRow st.next_id i]) mb
            rw [havail1]
            omega)
      refine ⟨st2, mkMeetingRow st.next_id i :: rows, ?_, ?_, ?_, ?_, ?_⟩
      · simp only [createMeetingsSequentially, hcreate, hseq]
      · simp [hlenr]
      · exact hmemb
      · intro r hr
        rcases List.mem_cons.mp hr with he | hm
        · rw [he]
          exact ⟨hrowmid, by simp [mkMeetingRow, hprice]⟩
        · exact hprops r hm
      · simp only [List.map_cons, hmap]
        rfl

/-- C6.  When a recurrence is created with use-membership requested and an
active membership with at least one available credit is found (membership ids
being distinct), creation succeeds and never creates more occurrences than
`available = total − (done + scheduled)` as computed at call time: when the
pattern generates more instances than that, exactly the first `available`
generated instances are created, and every created row is stamped with the
membership id and the membership's price-per-meeting as its hourly rate. -/
theorem claim_C6 (st : SystemState) (recurrence : Recurrence) (mb : MembershipRecord)
    (insts : List MeetingCreateRequest)
    (hnodup : (st.memberships.map MembershipRecord.id).Nodup)
    (hum : recurrence.use_membership = true)
    (hmb : getAvailableActiveMembership st.memberships st.meetings
      recurrence.client_id = some mb)
    (hgen : generate_meeting_instances recurrence recurrence.start_date
      recurrence.end_date = Except.ok insts) :
    ∃ st2 rows, create_recurrence st recurrence = Except.ok (st2, rows) ∧
      rows.length = (if (insts.length : Int) > availableMeetings st.meetings mb
        then (availableMeetings st.meetings mb).toNat else insts.length) ∧
      (rows.length : Int) ≤ availableMeetings st.meetings mb ∧
      (∀ r ∈ rows, r.membership_id = some mb.id ∧
        r.price_per_hour = mb.price_per_meeting) ∧
      rows.map Meeting.start_time =
        ((if (insts.length : Int) > availableMeetings st.meetings mb
          then insts.take (availableMeetings st.meetings mb).toNat
          else insts).map (fun i => toInstant i.start_time)) := by
  have hmb' : st.memberships.find? (fun r =>
      r.client_id == recurrence.client_id && r.status == MembershipStatus.ACTIVE &&
        decide (1 ≤ availableMeetings st.meetings r)) = some mb := hmb
  have hmem : mb ∈ st.memberships := List.mem_of_find?_eq_some hmb'
  have hpred := List.find?_some hmb'
  have havail1 : 1 ≤ availableMeetings st.meetings mb := by
    have h1 := (Bool.and_eq_true _ _).mp hpred
    exact of_decide_eq_true h1.2
  have hfind : st.memberships.find? (fun r => r.id == mb.id) = some mb :=
    find_by_id_of_nodup st.memberships mb hmem hnodup
  have hstat := generate_meeting_instances_status hgen
  by_cases hcap : (insts.length : Int) > availableMeetings st.meetings mb
  · -- capped branch
    have hcast : (((availableMeetings st.meetings mb).toNat : Nat) : Int) =
        availableMeetings st.meetings mb :=
      Int.toNat_of_nonneg (by omega)
    have hlen0 : (((insts.take (availableMeetings st.meetings mb).toNat).length : Nat) :
        Int) ≤ availableMeetings st.meetings mb := by
      rw [List.length_take]
      push_cast
      omega
    have hstampall := stampInstances_all mb (availableMeetings st.meetings mb)
      (insts.take (availableMeetings st.meetings mb).toNat) 0 (by push_cast; omega)
    have hprops0 : ∀ j ∈ (insts.take (availableMeetings st.meetings mb).toNat).map
        (fun inst =>
          { inst with
              price_per_hour := mb.price_per_meeting
              membership_id := some mb.id }),
        j.membership_id = some mb.id ∧ j.price_per_hour = mb.price_per_meeting ∧
          j.status = MeetingStatus.UPCOMING := by
      intro j hj
      obtain ⟨x, hx, hxe⟩ := List.mem_map.mp hj
      subst hxe
      exact ⟨rfl, rfl, hstat x (List.take_subset _ _ hx)⟩
    have hlenstamp : ((((insts.take (availableMeetings st.meetings mb).toNat).map
        (fun inst =>
          { inst with
              price_per_hour := mb.price_per_meeting
              membership_id := some mb.id })).length : Nat) : Int) ≤
        availableMeetings st.meetings mb := by
      rw [List.length_map]
      exact hlen0
    obtain ⟨st2, rows, hseq, hlenr, hmemb2, hrprops, hmap⟩ :=
      createSeq_stamped mb _ st hfind hprops0 hlenstamp
    refine ⟨st2, rows, ?_, ?_, ?_, hrprops, ?_⟩
    · simp only [create_recurrence, hum, if_true, hmb, hgen]
      rw [if_pos hcap, hstampall, hseq]
    · rw [if_pos hcap, hlenr, List.length_map, List.length_take]
      omega
    · rw [hlenr]
      exact hlenstamp
    · rw [if_pos hcap, hmap, List.map_map]
      rfl
  · -- uncapped branch
    have hstampall := stampInstances_all mb (availableMeetings st.meetings mb)
      insts 0 (by push_cast; omega)
    have hprops0 : ∀ j ∈ insts.map
        (fun inst =>
          { inst with
              price_per_hour := mb.price_per_meeting
              membership_id := some mb.id }),
        j.membership_id = some mb.id ∧ j.price_per_hour = mb.price_per_meeting ∧
          j.status = MeetingStatus.UPCOMING := by
      intro j hj
      obtain ⟨x, hx, hxe⟩ := List.mem_map.mp hj
      subst hxe
      exact ⟨rfl, rfl, hstat x hx⟩
    have hlenstamp : (((insts.map
        (fun inst =>
          { inst with
              price_per_hour := mb.price_per_meeting
              membership_id := some mb.id })).length : Nat) : Int) ≤
        availableMeetings st.meetings mb := by
      rw [List.length_map]
      omega
    obtain ⟨st2, rows, hseq, hlenr, hmemb2, hrprops, hmap⟩ :=
      createSeq_stamped mb _ st hfind hprops0 hlenstamp
    refine ⟨st2, rows, ?_, ?_, ?_, hrprops, ?_⟩
    · simp only [create_recurrence, hum, if_true, hmb, hgen]
      rw [if_neg hcap, hstampall, hseq]
    · rw [if_neg hcap, hlenr, List.length_map]
    · rw [hlenr]
      exact hlenstamp
    · rw [if_neg hcap, hmap, List.map_map]
      rfl

def c6Mb : MembershipRecord :=
  { id := 9, client_id := 7, total_meetings := 1, price_per_meeting := 25,
    status := MembershipStatus.ACTIVE }

def c6Rec : Recurrence :=
  { id := 5, service_id := 0, client_id := 7, frequency := RecurrenceFrequency.WEEKLY,
    start_date := ⟨⟨2024, 3, 1⟩, 0⟩, end_date := ⟨⟨2024, 3, 8⟩, 0⟩,
    title := "rec", start_time := 36000, end_time := 39600,
    price_per_hour := 100, use_membership := true }

def c6State : SystemState :=
  { meetings := [], memberships := [c6Mb], jobs := [], next_id := 1 }

/-- The two drafts the weekly pattern 2024-03-01..03-08 materializes. -/
def c6Insts : List MeetingCreateRequest :=
  [meetingInstanceFor c6Rec ⟨⟨2024, 3, 1⟩, 0⟩, meetingInstanceFor c6Rec ⟨⟨2024, 3, 8⟩, 0⟩]

/-- C6 witness: a pattern generating two instances against a membership with a
single available credit creates exactly one stamped occurrence — the first
generated instance — by `claim_C6`. -/
theorem claim_C6_witness :
    ∃ st2 rows, create_recurrence c6State c6Rec = Except.ok (st2, rows) ∧
      rows.length = (if (c6Insts.length : Int) > availableMeetings c6State.meetings c6Mb
        then (availableMeetings c6State.meetings c6Mb).toNat else c6Insts.length) ∧
      (rows.length : Int) ≤ availableMeetings c6State.meetings c6Mb ∧
      (∀ r ∈ rows, r.membership_id = some c6Mb.id ∧
        r.price_per_hour = c6Mb.price_per_meeting) ∧
      rows.map Meeting.start_time =
        ((if (c6Insts.length : Int) > availableMeetings c6State.meetings c6Mb
          then c6Insts.take (availableMeetings c6State.meetings c6Mb).toNat
          else c6Insts).map (fun i => toInstant i.start_time)) :=
  claim_C6 c6State c6Rec c6Mb c6Insts (by decide) rfl (by decide) (by decide)
